import Mathlib

/-!
Verification of the knowledge-refinement pipeline's scoring, chunking,
merging, coverage, transition, healing and verification logic.

The Python source is shallowly embedded: Python floats are modelled by ℚ,
`math.log` is an abstract parameter `log : ℚ → ℚ` (hypotheses state the
facts about the real logarithm a theorem needs), strings are Lean
`String`s with character-level operations on `String.data`, Python dicts
of entity fields become structures or association lists, and each
`execute_query` call is one committed single-statement transaction.
-/

/-! ## Scoring engine (src/workers/conflict/scorer.py) -/

/-- Source `clamp(value, lo, hi) = max(lo, min(hi, value))`. -/
def clamp (value lo hi : ℚ) : ℚ := max lo (min hi value)

/-- Source `evidence_quality_score`: `50 * (0.65*clamp(trust) + 0.35*clamp(relevance))`. -/
def evidence_quality_score (avg_trust avg_relevance : ℚ) : ℚ :=
  50 * (0.65 * clamp avg_trust 0 1 + 0.35 * clamp avg_relevance 0 1)

/-- Source `consensus_score`: returns 0 for a non-positive count, else
`20 * clamp(log(1+n)/log(1+10), 0, 1)`; `math.log` is the abstract `log`. -/
def consensus_score (log : ℚ → ℚ) (evidence_count : ℕ) : ℚ :=
  if evidence_count = 0 then 0
  else 20 * clamp (log (1 + evidence_count) / log (1 + 10)) 0 1

/-- Python truthiness of an optional string: `None` and `""` are falsy. -/
def truthyStr : Option String → Bool
  | none => false
  | some s => decide (s ≠ "")

/-- Python truthiness of an optional integer: `None` and `0` are falsy. -/
def truthyInt : Option ℤ → Bool
  | none => false
  | some y => decide (y ≠ 0)

/-- Value of an optional integer once known truthy. -/
def optInt : Option ℤ → ℤ
  | none => 0
  | some y => y

/-- Source `vehicle_specificity_score`, the −20…+20 case analysis. -/
def vehicle_specificity_score (entity_make_id entity_model_id : Option String)
    (entity_year_start entity_year_end : Option ℤ)
    (ctx_make_id ctx_model_id : Option String) (ctx_year : Option ℤ) : ℚ :=
  if !truthyStr ctx_make_id then 6
  else if !truthyStr entity_make_id then 6
  else if entity_make_id ≠ ctx_make_id then -20
  else if !truthyStr ctx_model_id || !truthyStr entity_model_id then 12
  else if entity_model_id ≠ ctx_model_id then -20
  else if truthyInt ctx_year && truthyInt entity_year_start && truthyInt entity_year_end then
    (if optInt entity_year_start ≤ optInt ctx_year ∧ optInt ctx_year ≤ optInt entity_year_end
     then 20 else -20)
  else if truthyInt ctx_year && truthyInt entity_year_start then
    (if optInt entity_year_start ≤ optInt ctx_year then 20 else -20)
  else 20

/-- Source `practical_impact_score` (0–10), per entity type. -/
def practical_impact_score (log : ℚ → ℚ) (entity_type : String)
    (confirmed_repair_count : ℕ) (probability_weight : ℚ)
    (frequency_score : ℤ) (solution_marked : Bool) : ℚ :=
  if entity_type = "fix" ∨ entity_type = "part" then
    (if confirmed_repair_count = 0 then 0
     else 10 * clamp (log (1 + confirmed_repair_count) / log (1 + 50)) 0 1)
  else if entity_type = "cause" then 10 * clamp probability_weight 0 1
  else if entity_type = "symptom" then 10 * clamp ((frequency_score : ℚ) / 10) 0 1
  else if entity_type = "thread" then (if solution_marked then 6 else 0)
  else 0

/-- Source `compute_score`: the four sub-scores summed, clamped to [0,100]. -/
def compute_score (log : ℚ → ℚ) (entity_type : String)
    (avg_trust avg_relevance : ℚ) (evidence_count : ℕ)
    (entity_make_id entity_model_id : Option String)
    (entity_year_start entity_year_end : Option ℤ)
    (ctx_make_id ctx_model_id : Option String) (ctx_year : Option ℤ)
    (confirmed_repair_count : ℕ) (probability_weight : ℚ)
    (frequency_score : ℤ) (solution_marked : Bool) : ℚ :=
  clamp (evidence_quality_score avg_trust avg_relevance
      + consensus_score log evidence_count
      + vehicle_specificity_score entity_make_id entity_model_id
          entity_year_start entity_year_end ctx_make_id ctx_model_id ctx_year
      + practical_impact_score log entity_type confirmed_repair_count
          probability_weight frequency_score solution_marked) 0 100

/-! ## Chunking (src/workers/chunking/worker.py) -/

/-- One chunk row: `content`, `char_start`, `char_end`. -/
structure Chunk where
  content : List Char
  char_start : ℕ
  char_end : ℕ
  deriving DecidableEq

/-- Loop body of source `chunk_text`. The fuel argument only bounds the
number of iterations; `text.length + 1` iterations always suffice when
`overlap < size` (each step advances `start` by `size - overlap ≥ 1`). -/
def chunk_text_aux (size overlap : ℕ) (text : List Char) : ℕ → ℕ → List Chunk
  | 0, _ => []
  | fuel + 1, start =>
    if start < text.length then
      let e := min (start + size) text.length
      let c : Chunk := ⟨(text.drop start).take (e - start), start, e⟩
      if text.length ≤ e then [c]
      else c :: chunk_text_aux size overlap text fuel (start + (size - overlap))
    else []

/-- Source `chunk_text(text, size, overlap)`. -/
def chunk_text (text : List Char) (size overlap : ℕ) : List Chunk :=
  chunk_text_aux size overlap text (text.length + 1) 0

/-- Source constant CHUNK_SIZE. -/
def CHUNK_SIZE : ℕ := 500

/-- Source constant CHUNK_OVERLAP. -/
def CHUNK_OVERLAP : ℕ := 50

/-- The `(chunk_index, chunk)` rows inserted by `process_document`
(`for i, chunk in enumerate(chunks)`). -/
def chunk_rows (text : List Char) : List (ℕ × Chunk) :=
  (chunk_text text CHUNK_SIZE CHUNK_OVERLAP).enum

/-- Well-formedness of a chunk list produced from offset `start`: the list
is non-empty, its first chunk starts at `start`, consecutive starts differ
by `size - overlap`, every chunk with a successor spans exactly `size`
characters, and every chunk is non-empty and ends within the text. -/
def chunks_wf (size overlap textLen start : ℕ) (cs : List Chunk) : Prop :=
  0 < cs.length
  ∧ (∀ (h0 : 0 < cs.length), (cs.get ⟨0, h0⟩).char_start = start)
  ∧ (∀ (i : ℕ) (hi : i + 1 < cs.length),
      (cs.get ⟨i + 1, hi⟩).char_start
        = (cs.get ⟨i, Nat.lt_of_succ_lt hi⟩).char_start + (size - overlap))
  ∧ (∀ (i : ℕ) (hi : i + 1 < cs.length),
      (cs.get ⟨i, Nat.lt_of_succ_lt hi⟩).char_end
        = (cs.get ⟨i, Nat.lt_of_succ_lt hi⟩).char_start + size)
  ∧ (∀ c ∈ cs, c.char_start < c.char_end ∧ c.char_end ≤ textLen)

/-! ## DTC confidence recalculation (src/workers/conflict/worker.py) -/

/-- One `refined.dtc_codes` row as used by `recalculate_dtc_confidence`. -/
structure DtcRow where
  id : String
  source_count : ℕ
  confidence_score : ℚ
  deriving DecidableEq

/-- Trust scores of the inner join `dtc_sources JOIN chunk_evaluations ON
chunk_id` restricted to one DTC: `dtc_sources` rows are `(dtc_id, chunk_id)`
pairs, `chunk_evaluations` rows are `(chunk_id, trust_score)` pairs. -/
def join_trust_scores (dtc_sources : List (String × String))
    (chunk_evaluations : List (String × ℚ)) (dtcId : String) : List ℚ :=
  (dtc_sources.filter (fun l => l.1 = dtcId)).flatMap
    (fun l => (chunk_evaluations.filter (fun e => e.1 = l.2)).map (fun e => e.2))

/-- SQL `COALESCE(AVG(...), 0.5)`: average of the joined trust scores, or
0.5 when the join is empty. -/
def avg_or_half (ts : List ℚ) : ℚ :=
  if ts = [] then 0.5 else ts.sum / ts.length

/-- New confidence of one DTC row per the UPDATE in
`recalculate_dtc_confidence`:
`LEAST(1, 0.3*LEAST(1, source_count/5) + 0.7*COALESCE(avg_trust, 0.5))`. -/
def new_dtc_confidence (d : DtcRow) (dtc_sources : List (String × String))
    (chunk_evaluations : List (String × ℚ)) : ℚ :=
  min 1 (0.3 * min 1 ((d.source_count : ℚ) / 5)
    + 0.7 * avg_or_half (join_trust_scores dtc_sources chunk_evaluations d.id))

/-- Source `recalculate_dtc_confidence`: the UPDATE touches every DTC row. -/
def recalculate_dtc_confidence (dtcs : List DtcRow)
    (dtc_sources : List (String × String))
    (chunk_evaluations : List (String × ℚ)) : List DtcRow :=
  dtcs.map (fun d =>
    { d with confidence_score := new_dtc_confidence d dtc_sources chunk_evaluations })

/-! ## Generic list helpers (stable sort, first-occurrence dedup) -/

/-- Stable insertion of `x` into a list sorted by the boolean relation `le`:
`x` goes before the first element it compares `le` to, so elements equal
under `le` keep their original relative order (Python `list.sort` is stable). -/
def isortInsert (le : α → α → Bool) (x : α) : List α → List α
  | [] => [x]
  | y :: t => if le x y then x :: y :: t else y :: isortInsert le x t

/-- Stable insertion sort by the boolean relation `le`. -/
def isortBy (le : α → α → Bool) : List α → List α
  | [] => []
  | x :: t => isortInsert le x (isortBy le t)

/-- Deduplication keeping the first occurrence of each element; models a
Python `set(...)` where only cardinality and membership are consumed. -/
def dedupFirst [DecidableEq α] : List α → List α
  | [] => []
  | x :: t => x :: (dedupFirst t).filter (fun y => y ≠ x)

/-! ## Text normalization (src/workers/conflict/merger.py, `normalize_text`)

Modelled character-level on `String.data`. NFKD normalization is the
identity on the character set covered by the model; Python `str.lower` is
`Char.toLower`; `\w` is modelled as alphanumeric-or-underscore and `\s` as
`Char.isWhitespace`. -/

/-- Python `str.lower()`. -/
def py_lower (cs : List Char) : List Char := cs.map Char.toLower

/-- Python `str.strip()`: drop whitespace at both ends. -/
def py_strip (cs : List Char) : List Char :=
  ((cs.dropWhile Char.isWhitespace).reverse.dropWhile Char.isWhitespace).reverse

/-- Regex `\w`: word characters. -/
def is_word_char (c : Char) : Bool := c.isAlphanum || c = '_'

/-- Characters kept by `re.sub(r'[^\w\s-]', '', ...)`. -/
def keep_char (c : Char) : Bool := is_word_char c || c.isWhitespace || c = '-'

/-- Regex `re.sub(r'\s+', ' ', ...)`: each maximal whitespace run becomes
one space. -/
def collapse_ws : List Char → List Char
  | [] => []
  | [c] => if c.isWhitespace then [' '] else [c]
  | c1 :: c2 :: rest =>
    if c1.isWhitespace && c2.isWhitespace then collapse_ws (c2 :: rest)
    else (if c1.isWhitespace then ' ' else c1) :: collapse_ws (c2 :: rest)

/-- Source `normalize_text`: NFKD (identity on the modelled characters),
lowercase, strip, remove punctuation except hyphens, collapse whitespace. -/
def normalize_text (s : String) : String :=
  ⟨collapse_ws (((py_strip (py_lower s.data))).filter keep_char)⟩

/-! ## Text-entity merging (src/workers/conflict/merger.py) -/

/-- A text-entity candidate dict. `text` holds the designated `text_field`
value; the remaining fields are the keys `merge_text_entities` reads or
writes (`.get` defaults are the field defaults). -/
structure TCand where
  id : String
  text : String
  score : ℚ
  evidence_count : ℕ
  avg_trust : ℚ
  avg_relevance : ℚ
  source_chunk_ids : List String
  rejected_reason : Option String
  merged_into : Option String
  deriving DecidableEq, Inhabited

/-- Normalized grouping key of a candidate. -/
def norm_key (c : TCand) : String := normalize_text c.text

/-- Source `group_duplicates`: group by normalized text, skipping empty
keys. A Python dict built with `setdefault` is an insertion-ordered map,
so the groups are listed by first occurrence of each key and each group
lists its members in input order. -/
def group_duplicates (candidates : List TCand) : List (String × List TCand) :=
  (dedupFirst ((candidates.map norm_key).filter (fun k => k ≠ ""))).map
    (fun k => (k, candidates.filter (fun c => norm_key c = k)))

/-- Comparator for `group.sort(key=lambda x: -x.get(score_field))`:
descending score, stable. -/
def score_desc (a b : TCand) : Bool := decide (b.score ≤ a.score)

/-- Trust values of group members with positive evidence. -/
def positive_trusts (group : List TCand) : List ℚ :=
  (group.filter (fun c => 0 < c.evidence_count)).map (fun c => c.avg_trust)

/-- Relevance values of group members with positive evidence. -/
def positive_relevances (group : List TCand) : List ℚ :=
  (group.filter (fun c => 0 < c.evidence_count)).map (fun c => c.avg_relevance)

/-- Merge one duplicate group of size ≥ 2: sort by score descending, copy
the winner, sum evidence, average trust/relevance over members with
positive evidence (when any), union the source chunk ids. -/
def merge_group (group : List TCand) : TCand :=
  let sorted := isortBy score_desc group
  let winner := sorted.headD default
  let all_trust := positive_trusts sorted
  let all_relevance := positive_relevances sorted
  { winner with
    evidence_count := (sorted.map (fun c => c.evidence_count)).sum
    avg_trust := if all_trust = [] then winner.avg_trust
      else all_trust.sum / all_trust.length
    avg_relevance := if all_relevance = [] then winner.avg_relevance
      else all_relevance.sum / all_relevance.length
    source_chunk_ids := dedupFirst (sorted.flatMap (fun c => c.source_chunk_ids)) }

/-- Losers of one duplicate group, marked rejected. -/
def reject_group (group : List TCand) : List TCand :=
  let sorted := isortBy score_desc group
  let winner := sorted.headD default
  sorted.tail.map (fun l =>
    { l with rejected_reason := some "duplicate_merged", merged_into := some winner.id })

/-- Source `merge_text_entities`: returns `(merged_canonical_list,
rejected_list)`; singleton groups pass through unchanged. -/
def merge_text_entities (candidates : List TCand) : List TCand × List TCand :=
  let groups := group_duplicates candidates
  (groups.map (fun g => if g.2.length = 1 then g.2.headD default else merge_group g.2),
   groups.flatMap (fun g => if g.2.length = 1 then [] else reject_group g.2))

/-! ## Numeric-range merging (src/workers/conflict/merger.py) -/

/-- A numeric-range candidate dict: `fields` is the association list of the
float-convertible values present (a missing or non-convertible value is
absent), `conflict_flag` the key written at the end. -/
structure NCand where
  id : String
  score : ℚ
  fields : List (String × ℚ)
  conflict_flag : Bool
  deriving DecidableEq, Inhabited

/-- Association-list lookup used for the numeric field dicts. -/
def assoc_lookup (l : List (String × ℚ)) (f : String) : Option ℚ :=
  (l.find? (fun p => p.1 = f)).map (fun p => p.2)

/-- Python `candidate.get(field)` restricted to the numeric fields. -/
def lookup_field (c : NCand) (f : String) : Option ℚ :=
  assoc_lookup c.fields f

/-- Python `winner[field] = v` on the association list. -/
def set_field : List (String × ℚ) → String → ℚ → List (String × ℚ)
  | [], f, v => [(f, v)]
  | (g, w) :: rest, f, v =>
    if g = f then (f, v) :: rest else (g, w) :: set_field rest f v

/-- Values of `field` collected over the candidates, in candidate order. -/
def collect_values (cands : List NCand) (f : String) : List ℚ :=
  cands.filterMap (fun c => lookup_field c f)

/-- Disagreement test of the inner loop: some later value differs from the
first by more than 20 % relative, or is non-zero while the first is zero. -/
def field_conflict (vs : List ℚ) : Bool :=
  match vs with
  | [] => false
  | top :: rest => rest.any (fun v =>
      if top = 0 then decide (v ≠ 0) else decide (0.2 < |v - top| / |top|))

/-- Python `min(values)` (0 on the empty list, never consumed there). -/
def list_min : List ℚ → ℚ
  | [] => 0
  | v :: rest => rest.foldl min v

/-- Python `max(values)` (0 on the empty list, never consumed there). -/
def list_max : List ℚ → ℚ
  | [] => 0
  | v :: rest => rest.foldl max v

/-- Character-level model of Python `str.endswith`. -/
def str_ends_with (s suffix : List Char) : Bool :=
  decide (s.reverse.take suffix.length = suffix.reverse)

/-- Comparator for `candidates.sort(key=lambda x: -x.get(score_field))`. -/
def nscore_desc (a b : NCand) : Bool := decide (b.score ≤ a.score)

/-- One iteration of the `for field in value_fields` loop: the accumulator
carries the winner's field map and the (sticky) conflict flag. -/
def merge_fields_step (sorted : List NCand)
    (acc : List (String × ℚ) × Bool) (f : String) : List (String × ℚ) × Bool :=
  if (collect_values sorted f).length ≤ 1 then acc
  else if (acc.2 || field_conflict (collect_values sorted f))
      && str_ends_with f.data "_min".data then
    (set_field acc.1 f (list_min (collect_values sorted f)),
      acc.2 || field_conflict (collect_values sorted f))
  else if (acc.2 || field_conflict (collect_values sorted f))
      && str_ends_with f.data "_max".data then
    (set_field acc.1 f (list_max (collect_values sorted f)),
      acc.2 || field_conflict (collect_values sorted f))
  else (acc.1, acc.2 || field_conflict (collect_values sorted f))

/-- Source `merge_numeric_ranges`: at most one candidate passes through
unchanged with no conflict; otherwise sort by score descending, copy the
best candidate, walk the value fields with the sticky conflict flag, and
return the merged entity together with the flag. -/
def merge_numeric_ranges (candidates : List NCand) (value_fields : List String) :
    NCand × Bool :=
  match candidates with
  | [] => (default, false)
  | [c] => (c, false)
  | _ =>
    let sorted := isortBy nscore_desc candidates
    let winner := sorted.headD default
    let r := value_fields.foldl (merge_fields_step sorted) (winner.fields, false)
    ({ winner with fields := r.1, conflict_flag := r.2 }, r.2)

/-! ## Coverage gap detection (src/workers/auditor/coverage_analyzer.py) -/

/-- One entry of the `DTC_PREFIXES` table. -/
structure PrefixInfo where
  range_start : ℕ
  range_end : ℕ
  category : String
  deriving DecidableEq

/-- Source constant `DTC_PREFIXES`. -/
def DTC_PREFIXES : List (String × PrefixInfo) :=
  [("P0", ⟨0, 999, "Powertrain (generic)"⟩),
   ("P1", ⟨0, 999, "Powertrain (manufacturer)"⟩),
   ("P2", ⟨0, 999, "Powertrain (generic ext)"⟩),
   ("P3", ⟨0, 499, "Powertrain (reserved)"⟩),
   ("B0", ⟨0, 999, "Body (generic)"⟩),
   ("B1", ⟨0, 999, "Body (manufacturer)"⟩),
   ("C0", ⟨0, 999, "Chassis (generic)"⟩),
   ("C1", ⟨0, 999, "Chassis (manufacturer)"⟩),
   ("U0", ⟨0, 999, "Network (generic)"⟩),
   ("U1", ⟨0, 999, "Network (manufacturer)"⟩)]

/-- Source constant `EXPECTED_DENSITY_PER_HUNDRED`. -/
def EXPECTED_DENSITY_PER_HUNDRED : ℕ := 30

/-- First character class `[PBCU]` of the code regex. -/
def is_dtc_letter (c : Char) : Bool := c = 'P' || c = 'B' || c = 'C' || c = 'U'

/-- Decimal value of a digit string. -/
def digits_to_nat (ds : List Char) : ℕ :=
  ds.foldl (fun acc c => 10 * acc + (c.toNat - '0'.toNat)) 0

/-- Regex `^([PBCU]\d)(\d{2,3})$`: prefix group and numeric group. -/
def parse_dtc_code (code : String) : Option (String × ℕ) :=
  match code.data with
  | l :: d :: rest =>
    if is_dtc_letter l && d.isDigit && rest.all Char.isDigit
        && (rest.length = 2 || rest.length = 3) then
      some (⟨[l, d]⟩, digits_to_nat rest)
    else none
  | _ => none

/-- Distinct parsed numbers of one prefix (`numbers = set(...)`). -/
def pxnumbers (codes : List String) (pr : String) : List ℕ :=
  dedupFirst (((codes.filterMap parse_dtc_code).filter (fun x => x.1 = pr)).map
    (fun x => x.2))

/-- Window starts `range(0, max_range + 1, 100)` with
`max_range = min(info.end, 999)`. -/
def window_starts (info : PrefixInfo) : List ℕ :=
  (List.range (min info.range_end 999 / 100 + 1)).map (fun i => i * 100)

/-- Count of parsed numbers inside `[hs, he]`. -/
def count_in_window (nums : List ℕ) (hs he : ℕ) : ℕ :=
  (nums.filter (fun n => decide (hs ≤ n) && decide (n ≤ he))).length

/-- Python `f"{n:02d}"`. -/
def pad2 (n : ℕ) : String := if n < 10 then "0" ++ Nat.repr n else Nat.repr n

/-- Gap range label `f"{prefix}{hs:02d}-{prefix}{he:02d}"`. -/
def range_label (pr : String) (hs he : ℕ) : String :=
  pr ++ pad2 hs ++ "-" ++ pr ++ pad2 he

/-- One gap dict produced by `_find_gap_ranges`. -/
structure GapEntry where
  range : String
  pfx : String
  category : String
  existing_count : ℕ
  expected_min : ℕ
  priority : String
  deriving DecidableEq

/-- The gap entry for one window of one prefix. -/
def mk_gap (codes : List String) (pr : String) (info : PrefixInfo) (hs : ℕ) : GapEntry :=
  let maxr := min info.range_end 999
  let he := min (hs + 99) maxr
  let cnt := count_in_window (pxnumbers codes pr) hs he
  { range := range_label pr hs he
    pfx := pr
    category := info.category
    existing_count := cnt
    expected_min := EXPECTED_DENSITY_PER_HUNDRED
    priority := if cnt = 0 then "high" else "medium" }

/-- Gap entries of one prefix: none when the prefix has no parsed codes,
else every window with fewer than 5 codes while the prefix holds more
than 10 distinct parsed numbers. -/
def gaps_for (codes : List String) (pr : String) (info : PrefixInfo) : List GapEntry :=
  let nums := pxnumbers codes pr
  if nums = [] then []
  else (window_starts info).filterMap (fun hs =>
    let maxr := min info.range_end 999
    let he := min (hs + 99) maxr
    let cnt := count_in_window nums hs he
    if cnt < 5 ∧ nums.length > 10 then some (mk_gap codes pr info hs) else none)

/-- All gap entries before sorting and truncation. -/
def all_gaps (codes : List String) : List GapEntry :=
  DTC_PREFIXES.flatMap (fun pi => gaps_for codes pi.1 pi.2)

/-- Code-point lexicographic `≤` on character lists; Python compares the
range-label strings exactly this way. -/
def str_le : List Char → List Char → Bool
  | [], _ => true
  | _ :: _, [] => false
  | a :: as_, b :: bs =>
    decide (a.toNat < b.toNat) || (decide (a.toNat = b.toNat) && str_le as_ bs)

/-- Numeric sort key of a priority: `0 if priority == "high" else 1`. -/
def prio_val (g : GapEntry) : ℕ := if g.priority = "high" then 0 else 1

/-- Comparator for `gaps.sort(key=lambda g: (0 if high else 1, g.range))`. -/
def gap_le (a b : GapEntry) : Bool :=
  decide (prio_val a < prio_val b)
    || (decide (prio_val a = prio_val b) && str_le a.range.data b.range.data)

/-- Source `_find_gap_ranges`: sort by `(priority, range)` and keep the top
30 gaps. -/
def find_gap_ranges (codes : List String) : List GapEntry :=
  (isortBy gap_le (all_gaps codes)).take 30

/-! ## Stage transition (src/workers/shared/pipeline.py, db.py and the
chunking worker's main loop) -/

/-- One SQL write executed by the pipeline helpers. -/
inductive DbWrite where
  | stage_update (doc stage : String) (err : Option String)
  | log_insert (doc stage status : String) (msg : Option String)
  deriving DecidableEq

/-- Observable state: the list of committed transactions (each the list of
writes committed together by one `conn.commit()`) and the Redis queue. -/
structure SysState where
  txns : List (List DbWrite)
  queue : List String
  deriving DecidableEq

/-- Source `execute_query`: opens a connection, executes one statement and
commits it, so every call commits a single-statement transaction. -/
def execute_query (st : SysState) (w : DbWrite) : SysState :=
  { st with txns := st.txns ++ [[w]] }

/-- Source `update_document_stage`. -/
def update_document_stage (st : SysState) (doc stage : String)
    (err : Option String) : SysState :=
  execute_query st (.stage_update doc stage err)

/-- Source `log_processing`. -/
def log_processing (st : SysState) (doc stage status : String)
    (msg : Option String) : SysState :=
  execute_query st (.log_insert doc stage status msg)

/-- Source `push_job` (`LPUSH`): `pushOk` tells whether Redis accepts the
push; on failure the exception propagates (second component `false`). -/
def push_job (st : SysState) (doc : String) (pushOk : Bool) : SysState × Bool :=
  if pushOk then ({ st with queue := st.queue ++ [doc] }, true) else (st, false)

/-- Source `advance_to_next_stage`: with a next queue, set the next stage
label then push; with none, set the completed label. -/
def advance_to_next_stage (st : SysState) (doc completed_stage next_stage_label : String)
    (next_queue : Option String) (pushOk : Bool) : SysState × Bool :=
  match next_queue with
  | some _ => push_job (update_document_stage st doc next_stage_label none) doc pushOk
  | none => (update_document_stage st doc completed_stage none, true)

/-- Tail of the chunking worker's `process_document` followed by `main`'s
exception handler: log completion, advance to `embedding`; if the push
raises, `main` sets the stage to `error` and logs a failure. -/
def chunking_transition (st : SysState) (doc : String) (pushOk : Bool) : SysState :=
  let st1 := log_processing st doc "chunking" "completed" (some "Created chunks")
  let r := advance_to_next_stage st1 doc "chunked" "embedding" (some "jobs:embed") pushOk
  if r.2 then r.1
  else log_processing (update_document_stage r.1 doc "error" (some "push failed"))
    doc "chunking" "failed" (some "push failed")

/-- Latest committed stage of a document. -/
def doc_stage (st : SysState) (doc : String) : Option String :=
  (st.txns.flatMap id).foldl (fun acc w =>
    match w with
    | .stage_update d s _ => if d = doc then some s else acc
    | _ => acc) none

/-- Does a transaction contain a stage update? -/
def txn_has_stage_update (t : List DbWrite) : Bool :=
  t.any (fun w => match w with | .stage_update _ _ _ => true | _ => false)

/-- Does a transaction contain a processing-log insert? -/
def txn_has_log_insert (t : List DbWrite) : Bool :=
  t.any (fun w => match w with | .log_insert _ _ _ _ => true | _ => false)

/-! ## Healing agent (src/workers/healing/worker.py, safety.py) -/

/-- Parsed alert fields read by `process_alert`. -/
structure HealAlert where
  id : String
  atype : String
  severity : String
  component : String
  deriving DecidableEq

/-- LLM analysis fields read by `process_alert`. -/
structure HealAnalysis where
  action : String
  confidence : ℚ
  reasoning : String
  deriving DecidableEq

/-- One `log_healing_action` row. -/
structure HealLogRow where
  alert_id : String
  action_type : String
  component : String
  decision : String
  reason : Option String
  success : Option Bool
  deriving DecidableEq

/-- Result of one `process_alert` call: whether `execute_healing_action`
ran, and the healing-log rows written. -/
structure HealOutcome where
  executed : Bool
  logs : List HealLogRow
  deriving DecidableEq

/-- Source `action.split(':')[0] if ':' in action else action`. -/
def action_type_of (action : String) : String :=
  ⟨action.data.takeWhile (fun c => c ≠ ':')⟩

/-- Source `is_action_allowed`: deny list takes precedence, then the
action type must be in the allow list. -/
def is_action_allowed (allow deny : List String) (action : String) : Bool :=
  let t := action_type_of action
  if deny.contains t then false else allow.contains t

/-- Source `HealingAgent.process_alert` as a function of the external
observations: the parse result, the idempotency gate, the LLM analysis,
the allow/deny lists, the rate-limit gate, `AUTO_FIX_ENABLED`, and whether
the executed action reports success. -/
def process_alert (parsed : Option HealAlert) (idemOk : Bool)
    (analysis : Option HealAnalysis) (allow deny : List String)
    (rateOk autoFix execOk : Bool) : HealOutcome :=
  match parsed with
  | none => ⟨false, []⟩
  | some alert =>
    if !idemOk then ⟨false, []⟩
    else
      match analysis with
      | none => ⟨false, [⟨alert.id, "analysis_failed", alert.component, "skipped",
          some "LLM analysis failed", none⟩]⟩
      | some an =>
        if !is_action_allowed allow deny an.action then
          ⟨false, [⟨alert.id, an.action, alert.component, "escalated",
            some "Action not auto-approved", none⟩]⟩
        else if !rateOk then
          ⟨false, [⟨alert.id, an.action, alert.component, "deferred",
            some "Rate limit exceeded", none⟩]⟩
        else if autoFix && decide ((0.7 : ℚ) ≤ an.confidence) then
          ⟨true, [⟨alert.id, an.action, alert.component, "executed",
            none, some execOk⟩]⟩
        else
          ⟨false, [⟨alert.id, an.action, alert.component, "escalated",
            some "Low confidence or auto-fix disabled", none⟩]⟩

/-! ## Verification result processing (src/workers/verify/worker.py) -/

/-- One `refined.verification_results` row (the fields the claim is
about). -/
structure VerifyRow where
  field_verified : String
  verification_result : String
  confidence_adjustment : ℚ
  deriving DecidableEq

/-- Result of `process_verification_result`: overall status, clamped
adjustment, clamped new confidence, whether `verified_at = NOW()` was
stamped, and the per-field rows. -/
structure VerifyOutcome where
  status : String
  adjustment : ℚ
  new_confidence : ℚ
  verified_at_set : Bool
  rows : List VerifyRow
  deriving DecidableEq

/-- Source `process_verification_result`. `fields` is the parsed
`verification["fields"]` object as `(field_name, result)` pairs (each
`field_result.get("result", "uncertain")` already applied); `adjRaw` the
raw `confidence_adjustment`; `confidence` the stored score. -/
def process_verification_result (fields : List (String × String))
    (adjRaw confidence : ℚ) : VerifyOutcome :=
  let adj := max (-0.3) (min 0.3 adjRaw)
  let results := fields.map (fun fr => fr.2)
  let status :=
    if results.all (fun r => r = "confirmed") then "verified"
    else if results.any (fun r => r = "disputed") then "disputed"
    else if results.any (fun r => r = "corrected") then "corrected"
    else "uncertain"
  { status := status
    adjustment := adj
    new_confidence := max 0 (min 1 (confidence + adj))
    verified_at_set := true
    rows := fields.map (fun fr =>
      ⟨fr.1, fr.2, if fr.1 = "description" then adj else 0⟩) }

/-! ## Helper lemmas -/

theorem clamp_lo_le (x lo hi : ℚ) : lo ≤ clamp x lo hi := le_max_left _ _

theorem clamp_le_hi (x lo hi : ℚ) (h : lo ≤ hi) : clamp x lo hi ≤ hi :=
  max_le h (min_le_left _ _)

theorem clamp_eq_self (x lo hi : ℚ) (h1 : lo ≤ x) (h2 : x ≤ hi) :
    clamp x lo hi = x := by
  unfold clamp
  rw [min_eq_right h2, max_eq_right h1]

theorem clamp_eq_hi (x lo hi : ℚ) (h1 : lo ≤ hi) (h2 : hi ≤ x) :
    clamp x lo hi = hi := by
  unfold clamp
  rw [min_eq_left h2, max_eq_right h1]

theorem evidence_quality_score_bounds (t r : ℚ) :
    0 ≤ evidence_quality_score t r ∧ evidence_quality_score t r ≤ 50 := by
  have ht0 := clamp_lo_le t 0 1
  have ht1 := clamp_le_hi t 0 1 (by norm_num)
  have hr0 := clamp_lo_le r 0 1
  have hr1 := clamp_le_hi r 0 1 (by norm_num)
  unfold evidence_quality_score
  constructor <;> nlinarith

theorem consensus_score_bounds (log : ℚ → ℚ) (n : ℕ) :
    0 ≤ consensus_score log n ∧ consensus_score log n ≤ 20 := by
  unfold consensus_score
  by_cases h : n = 0
  · simp [h]
  · have h0 := clamp_lo_le (log (1 + n) / log (1 + 10)) 0 1
    have h1 := clamp_le_hi (log (1 + n) / log (1 + 10)) 0 1 (by norm_num)
    simp only [h, if_false]
    constructor <;> nlinarith

theorem practical_impact_score_bounds (log : ℚ → ℚ) (etype : String)
    (crc : ℕ) (pw : ℚ) (fs : ℤ) (sm : Bool) :
    0 ≤ practical_impact_score log etype crc pw fs sm
      ∧ practical_impact_score log etype crc pw fs sm ≤ 10 := by
  unfold practical_impact_score
  by_cases h1 : etype = "fix" ∨ etype = "part"
  · simp only [h1, if_true]
    by_cases h2 : crc = 0
    · simp [h2]
    · have h0 := clamp_lo_le (log (1 + crc) / log (1 + 50)) 0 1
      have hh := clamp_le_hi (log (1 + crc) / log (1 + 50)) 0 1 (by norm_num)
      simp only [h2, if_false]
      constructor <;> nlinarith
  · simp only [h1, if_false]
    by_cases h2 : etype = "cause"
    · have h0 := clamp_lo_le pw 0 1
      have hh := clamp_le_hi pw 0 1 (by norm_num)
      simp only [h2, if_true]
      constructor <;> nlinarith
    · simp only [h2, if_false]
      by_cases h3 : etype = "symptom"
      · have h0 := clamp_lo_le ((fs : ℚ) / 10) 0 1
        have hh := clamp_le_hi ((fs : ℚ) / 10) 0 1 (by norm_num)
        simp only [h3, if_true]
        constructor <;> nlinarith
      · simp only [h3, if_false]
        by_cases h4 : etype = "thread"
        · simp only [h4, if_true]
          cases sm <;> norm_num
        · simp [h4]

/-! ## C1: compute_score -/

/-- C1 (amended): `compute_score` returns the sum of the four sub-scores
clamped to [0,100] (not the bare sum): Evidence Quality is
`50·(0.65·trust + 0.35·relevance)` with trust and relevance clamped to
[0,1], Consensus is `20·clamp(ln(1+n)/ln 11, 0, 1)` (capping at `n = 10`),
plus Vehicle Specificity and Practical Impact; the returned value always
lies in [0,100]. `log` abstracts `math.log`; the hypotheses state that it
vanishes at 1, is monotone on [1, ∞) and is positive at 11. -/
theorem compute_score_spec (log : ℚ → ℚ) (hlog1 : log 1 = 0)
    (hmono : ∀ a b : ℚ, 1 ≤ a → a ≤ b → log a ≤ log b) (hpos : 0 < log 11)
    (entity_type : String) (avg_trust avg_relevance : ℚ) (evidence_count : ℕ)
    (em emod : Option String) (ys ye : Option ℤ)
    (cm cmod : Option String) (cy : Option ℤ)
    (crc : ℕ) (pw : ℚ) (fs : ℤ) (sm : Bool) :
    compute_score log entity_type avg_trust avg_relevance evidence_count
        em emod ys ye cm cmod cy crc pw fs sm
      = clamp (50 * (0.65 * clamp avg_trust 0 1 + 0.35 * clamp avg_relevance 0 1)
          + 20 * clamp (log (1 + evidence_count) / log 11) 0 1
          + vehicle_specificity_score em emod ys ye cm cmod cy
          + practical_impact_score log entity_type crc pw fs sm) 0 100
    ∧ 0 ≤ compute_score log entity_type avg_trust avg_relevance evidence_count
        em emod ys ye cm cmod cy crc pw fs sm
    ∧ compute_score log entity_type avg_trust avg_relevance evidence_count
        em emod ys ye cm cmod cy crc pw fs sm ≤ 100
    ∧ (10 ≤ evidence_count → consensus_score log evidence_count = 20) := by
  have h11 : (1 + 10 : ℚ) = 11 := by norm_num
  have hcs : consensus_score log evidence_count
      = 20 * clamp (log (1 + evidence_count) / log 11) 0 1 := by
    unfold consensus_score
    by_cases h : evidence_count = 0
    · rw [if_pos h, h]
      have h1 : ((1 : ℚ) + ((0 : ℕ) : ℚ)) = 1 := by norm_num
      rw [h1, hlog1, zero_div]
      unfold clamp
      norm_num
    · rw [if_neg h, h11]
  refine ⟨?_, clamp_lo_le _ 0 100, clamp_le_hi _ 0 100 (by norm_num), ?_⟩
  · unfold compute_score evidence_quality_score
    rw [hcs]
  · intro hn
    have hne : evidence_count ≠ 0 := by omega
    have hcast : (11 : ℚ) ≤ 1 + evidence_count := by
      have : (10 : ℚ) ≤ evidence_count := by exact_mod_cast hn
      linarith
    have hlog : log 11 ≤ log (1 + evidence_count) := hmono 11 _ (by norm_num) hcast
    have hone : (1 : ℚ) ≤ log (1 + evidence_count) / log (1 + 10) := by
      rw [h11, le_div_iff₀ hpos]
      linarith
    unfold consensus_score
    rw [if_neg hne, clamp_eq_hi _ 0 1 (by norm_num) hone]
    norm_num

/-- Witness for C1: the hypotheses on the abstract logarithm are satisfied
by a concrete monotone function vanishing at 1, and the theorem then yields
the cap at 10 pieces of evidence. -/
theorem compute_score_spec_witness :
    ((fun x : ℚ => x - 1) 1 = 0)
    ∧ (0 < (fun x : ℚ => x - 1) 11)
    ∧ consensus_score (fun x : ℚ => x - 1) 10 = 20 :=
  ⟨by norm_num, by norm_num,
    (compute_score_spec (fun x : ℚ => x - 1) (by norm_num)
      (fun a b _ h2 => by simpa using sub_le_sub_right h2 1) (by norm_num)
      "cause" 0.5 1 10 none none none none none none none 0 0 0 false).2.2.2
      (le_refl 10)⟩

/-- C1 counterexample: with zero trust, relevance and evidence and a
make-mismatched vehicle context, the four sub-scores sum to −20, yet
`compute_score` returns 0 — the function returns the clamped sum, not the
sum. -/
theorem compute_score_not_sum :
    compute_score (fun _ : ℚ => 0) "step" 0 0 0 (some "toyota") none none none
        (some "ford") none none 0 0 0 false = 0
    ∧ evidence_quality_score 0 0 + consensus_score (fun _ : ℚ => 0) 0
        + vehicle_specificity_score (some "toyota") none none none
            (some "ford") none none
        + practical_impact_score (fun _ : ℚ => 0) "step" 0 0 0 false = -20
    ∧ (0 : ℚ) ≠ -20 := by
  have hv : vehicle_specificity_score (some "toyota") none none none
      (some "ford") none none = -20 := by
    unfold vehicle_specificity_score
    rw [if_neg (by decide), if_neg (by decide), if_pos (by decide)]
  have he : evidence_quality_score 0 0 = 0 := by
    unfold evidence_quality_score clamp
    norm_num
  have hc : consensus_score (fun _ : ℚ => 0) 0 = 0 := by
    unfold consensus_score
    rw [if_pos rfl]
  have hp : practical_impact_score (fun _ : ℚ => 0) "step" 0 0 0 false = 0 := by
    unfold practical_impact_score
    rw [if_neg (by decide), if_neg (by decide), if_neg (by decide),
      if_neg (by decide)]
  refine ⟨?_, ?_, by norm_num⟩
  · unfold compute_score
    rw [he, hc, hv, hp]
    unfold clamp
    norm_num
  · rw [he, hc, hv, hp]
    norm_num

/-! ## C6: vehicle_specificity_score -/

theorem vss_ctx_falsy (em emod : Option String) (ys ye : Option ℤ)
    (cm cmod : Option String) (cy : Option ℤ) (h : truthyStr cm = false) :
    vehicle_specificity_score em emod ys ye cm cmod cy = 6 := by
  unfold vehicle_specificity_score
  rw [if_pos (by rw [h]; rfl)]

theorem vss_toyota_ford (emod : Option String) (ys ye : Option ℤ)
    (cmod : Option String) (cy : Option ℤ) :
    vehicle_specificity_score (some "toyota") emod ys ye (some "ford") cmod cy
      = -20 := by
  unfold vehicle_specificity_score
  rw [if_neg (by decide), if_neg (by decide), if_pos (by decide)]

/-- C6 (amended): `vehicle_specificity_score` implements the claimed case
analysis — no vehicle context → +6; entity with no make → +6; make
mismatch → −20; make match but no model on either side → +12; model
mismatch → −20; make and model match with no year constraint → +20;
context year inside `[year_start, year_end]` → +20, outside → −20; with
`year_end` absent only the lower bound is enforced — and for entity make
"toyota" against context make "ford" it returns −20. The overall score `S`
drops by at least 20 versus the same call with no context provided the
no-context score is at least 20 (otherwise the clamp of `S` at 0 can make
the drop smaller). -/
theorem vehicle_specificity_cases :
    (∀ (em emod : Option String) (ys ye : Option ℤ) (cm cmod : Option String)
      (cy : Option ℤ), truthyStr cm = false →
      vehicle_specificity_score em emod ys ye cm cmod cy = 6)
    ∧ (∀ (em emod : Option String) (ys ye : Option ℤ) (cm cmod : Option String)
      (cy : Option ℤ), truthyStr em = false →
      vehicle_specificity_score em emod ys ye cm cmod cy = 6)
    ∧ (∀ (em emod : Option String) (ys ye : Option ℤ) (cm cmod : Option String)
      (cy : Option ℤ), truthyStr em = true → truthyStr cm = true → em ≠ cm →
      vehicle_specificity_score em emod ys ye cm cmod cy = -20)
    ∧ (∀ (em emod : Option String) (ys ye : Option ℤ) (cm cmod : Option String)
      (cy : Option ℤ), truthyStr em = true → truthyStr cm = true → em = cm →
      (truthyStr emod = false ∨ truthyStr cmod = false) →
      vehicle_specificity_score em emod ys ye cm cmod cy = 12)
    ∧ (∀ (em emod : Option String) (ys ye : Option ℤ) (cm cmod : Option String)
      (cy : Option ℤ), truthyStr em = true → truthyStr cm = true → em = cm →
      truthyStr emod = true → truthyStr cmod = true → emod ≠ cmod →
      vehicle_specificity_score em emod ys ye cm cmod cy = -20)
    ∧ (∀ (em emod : Option String) (ys ye : Option ℤ) (cm cmod : Option String)
      (cy : Option ℤ), truthyStr em = true → truthyStr cm = true → em = cm →
      truthyStr emod = true → truthyStr cmod = true → emod = cmod →
      (truthyInt cy = false ∨ truthyInt ys = false) →
      vehicle_specificity_score em emod ys ye cm cmod cy = 20)
    ∧ (∀ (em emod : Option String) (ys ye : Option ℤ) (cm cmod : Option String)
      (cy : Option ℤ), truthyStr em = true → truthyStr cm = true → em = cm →
      truthyStr emod = true → truthyStr cmod = true → emod = cmod →
      truthyInt cy = true → truthyInt ys = true → truthyInt ye = true →
      vehicle_specificity_score em emod ys ye cm cmod cy
        = if optInt ys ≤ optInt cy ∧ optInt cy ≤ optInt ye then 20 else -20)
    ∧ (∀ (em emod : Option String) (ys ye : Option ℤ) (cm cmod : Option String)
      (cy : Option ℤ), truthyStr em = true → truthyStr cm = true → em = cm →
      truthyStr emod = true → truthyStr cmod = true → emod = cmod →
      truthyInt cy = true → truthyInt ys = true → truthyInt ye = false →
      vehicle_specificity_score em emod ys ye cm cmod cy
        = if optInt ys ≤ optInt cy then 20 else -20)
    ∧ (∀ (emod : Option String) (ys ye : Option ℤ) (cmod : Option String)
      (cy : Option ℤ),
      vehicle_specificity_score (some "toyota") emod ys ye (some "ford") cmod cy
        = -20)
    ∧ (∀ (log : ℚ → ℚ) (etype : String) (t r : ℚ) (n : ℕ)
      (emod : Option String) (ys ye : Option ℤ) (cmod : Option String)
      (cy : Option ℤ) (crc : ℕ) (pw : ℚ) (fs : ℤ) (sm : Bool),
      20 ≤ compute_score log etype t r n (some "toyota") emod ys ye
        none none none crc pw fs sm →
      20 ≤ compute_score log etype t r n (some "toyota") emod ys ye
          none none none crc pw fs sm
        - compute_score log etype t r n (some "toyota") emod ys ye
          (some "ford") cmod cy crc pw fs sm) := by
  refine ⟨?_, ?_, ?_, ?_, ?_, ?_, ?_, ?_, ?_, ?_⟩
  · intro em emod ys ye cm cmod cy h
    exact vss_ctx_falsy em emod ys ye cm cmod cy h
  · intro em emod ys ye cm cmod cy h
    unfold vehicle_specificity_score
    cases hcm : truthyStr cm
    · simp
    · rw [if_neg (by simp), if_pos (by rw [h]; rfl)]
  · intro em emod ys ye cm cmod cy h1 h2 h3
    unfold vehicle_specificity_score
    rw [if_neg (by rw [h2]; simp), if_neg (by rw [h1]; simp), if_pos h3]
  · intro em emod ys ye cm cmod cy h1 h2 h3 h4
    unfold vehicle_specificity_score
    rw [if_neg (by rw [h2]; simp), if_neg (by rw [h1]; simp),
      if_neg (by simp [h3]), if_pos ?_]
    rcases h4 with h4 | h4 <;> rw [h4] <;> simp
  · intro em emod ys ye cm cmod cy h1 h2 h3 h4 h5 h6
    unfold vehicle_specificity_score
    rw [if_neg (by rw [h2]; simp), if_neg (by rw [h1]; simp),
      if_neg (by simp [h3]), if_neg (by rw [h4, h5]; simp), if_pos h6]
  · intro em emod ys ye cm cmod cy h1 h2 h3 h4 h5 h6 h7
    unfold vehicle_specificity_score
    rw [if_neg (by rw [h2]; simp), if_neg (by rw [h1]; simp),
      if_neg (by simp [h3]), if_neg (by rw [h4, h5]; simp),
      if_neg (by simp [h6])]
    rcases h7 with h7 | h7 <;> rw [if_neg (by rw [h7]; simp),
      if_neg (by rw [h7]; simp)]
  · intro em emod ys ye cm cmod cy h1 h2 h3 h4 h5 h6 h7 h8 h9
    unfold vehicle_specificity_score
    rw [if_neg (by rw [h2]; simp), if_neg (by rw [h1]; simp),
      if_neg (by simp [h3]), if_neg (by rw [h4, h5]; simp),
      if_neg (by simp [h6]), if_pos (by rw [h7, h8, h9]; rfl)]
  · intro em emod ys ye cm cmod cy h1 h2 h3 h4 h5 h6 h7 h8 h9
    unfold vehicle_specificity_score
    rw [if_neg (by rw [h2]; simp), if_neg (by rw [h1]; simp),
      if_neg (by simp [h3]), if_neg (by rw [h4, h5]; simp),
      if_neg (by simp [h6]), if_neg (by rw [h7, h8, h9]; simp),
      if_pos (by rw [h7, h8]; rfl)]
  · intro emod ys ye cmod cy
    exact vss_toyota_ford emod ys ye cmod cy
  · intro log etype t r n emod ys ye cmod cy crc pw fs sm h20
    have hE := evidence_quality_score_bounds t r
    have hC := consensus_score_bounds log n
    have hP := practical_impact_score_bounds log etype crc pw fs sm
    unfold compute_score at h20 ⊢
    rw [vss_ctx_falsy (some "toyota") emod ys ye none none none rfl] at h20 ⊢
    rw [vss_toyota_ford emod ys ye cmod cy]
    set E := evidence_quality_score t r with hEdef
    set C := consensus_score log n with hCdef
    set P := practical_impact_score log etype crc pw fs sm with hPdef
    have e1 : clamp (E + C + 6 + P) 0 100 = E + C + 6 + P :=
      clamp_eq_self _ _ _ (by linarith [hE.1, hC.1, hP.1])
        (by linarith [hE.2, hC.2, hP.2])
    have e2 : clamp (E + C + -20 + P) 0 100 = max 0 (E + C + -20 + P) := by
      unfold clamp
      rw [min_eq_right (by linarith [hE.2, hC.2, hP.2])]
    rw [e1] at h20 ⊢
    rw [e2]
    rcases le_total (E + C + -20 + P) 0 with h | h
    · rw [max_eq_left h]
      linarith
    · rw [max_eq_right h]
      linarith

/-- Witness for C6: the make-mismatch case and the score-drop bound hold at
a concrete instance; the no-context score there is 56 ≥ 20 and the drop
bound applies. -/
theorem vehicle_specificity_cases_witness :
    (truthyStr (some "honda") = true ∧ truthyStr (some "ford") = true
      ∧ some "honda" ≠ some "ford"
      ∧ vehicle_specificity_score (some "honda") none none none
          (some "ford") none none = -20)
    ∧ (20 ≤ compute_score (fun _ : ℚ => 0) "step" 1 1 0 (some "toyota")
          none none none none none none 0 0 0 false
      ∧ 20 ≤ compute_score (fun _ : ℚ => 0) "step" 1 1 0 (some "toyota")
            none none none none none none 0 0 0 false
          - compute_score (fun _ : ℚ => 0) "step" 1 1 0 (some "toyota")
            none none none (some "ford") none none 0 0 0 false) := by
  have hS1 : 20 ≤ compute_score (fun _ : ℚ => 0) "step" 1 1 0 (some "toyota")
      none none none none none none 0 0 0 false := by
    unfold compute_score
    rw [vss_ctx_falsy (some "toyota") none none none none none none rfl]
    have he : evidence_quality_score 1 1 = 50 := by
      unfold evidence_quality_score clamp
      norm_num
    have hc : consensus_score (fun _ : ℚ => 0) 0 = 0 := by
      unfold consensus_score
      rw [if_pos rfl]
    have hp : practical_impact_score (fun _ : ℚ => 0) "step" 0 0 0 false = 0 := by
      unfold practical_impact_score
      rw [if_neg (by decide), if_neg (by decide), if_neg (by decide),
        if_neg (by decide)]
    rw [he, hc, hp]
    unfold clamp
    norm_num
  exact ⟨⟨by decide, by decide, by decide,
      vehicle_specificity_cases.2.2.1 (some "honda") none none none
        (some "ford") none none (by decide) (by decide) (by decide)⟩,
    hS1,
    vehicle_specificity_cases.2.2.2.2.2.2.2.2.2 (fun _ : ℚ => 0) "step" 1 1 0
      none none none none none 0 0 0 false hS1⟩

/-- C6 counterexample: with zero trust, relevance and evidence the
no-context score is 6 and the ford-context score is 0, so the overall
score drops by 6 < 20 even though `vehicle_specificity_score` itself
returns −20: the claimed unconditional drop of at least 20 fails. -/
theorem vss_drop_counterexample :
    vehicle_specificity_score (some "toyota") none none none
        (some "ford") none none = -20
    ∧ compute_score (fun _ : ℚ => 0) "step" 0 0 0 (some "toyota") none none
        none none none none 0 0 0 false = 6
    ∧ compute_score (fun _ : ℚ => 0) "step" 0 0 0 (some "toyota") none none
        none (some "ford") none none 0 0 0 false = 0
    ∧ ¬ (20 ≤ (6 : ℚ) - 0) := by
  have he : evidence_quality_score 0 0 = 0 := by
    unfold evidence_quality_score clamp
    norm_num
  have hc : consensus_score (fun _ : ℚ => 0) 0 = 0 := by
    unfold consensus_score
    rw [if_pos rfl]
  have hp : practical_impact_score (fun _ : ℚ => 0) "step" 0 0 0 false = 0 := by
    unfold practical_impact_score
    rw [if_neg (by decide), if_neg (by decide), if_neg (by decide),
      if_neg (by decide)]
  refine ⟨vss_toyota_ford none none none none none, ?_, ?_, by norm_num⟩
  · unfold compute_score
    rw [vss_ctx_falsy (some "toyota") none none none none none none rfl,
      he, hc, hp]
    unfold clamp
    norm_num
  · unfold compute_score
    rw [vss_toyota_ford none none none none none, he, hc, hp]
    unfold clamp
    norm_num

/-! ## C2: chunking -/

theorem chunks_wf_singleton (size overlap textLen start : ℕ) (cnt : List Char)
    (e : ℕ) (h1 : start < e) (h2 : e ≤ textLen) :
    chunks_wf size overlap textLen start [⟨cnt, start, e⟩] := by
  refine ⟨by simp, fun h0 => rfl, ?_, ?_, ?_⟩
  · intro i hi
    simp at hi
  · intro i hi
    simp at hi
  · intro c hc
    simp only [List.mem_singleton] at hc
    subst hc
    exact ⟨h1, h2⟩

theorem chunks_wf_cons (size overlap textLen start : ℕ) (cnt : List Char)
    (e : ℕ) (rest : List Chunk)
    (hr : chunks_wf size overlap textLen (start + (size - overlap)) rest)
    (he : e = start + size) (h1 : start < e) (h2 : e ≤ textLen) :
    chunks_wf size overlap textLen start (⟨cnt, start, e⟩ :: rest) := by
  obtain ⟨hne, hhd, hcons, hend2, hbnd⟩ := hr
  refine ⟨by simp, fun h0 => rfl, ?_, ?_, ?_⟩
  · intro i hi
    match i with
    | 0 =>
      have h0 : 0 < rest.length := by
        simpa using Nat.lt_of_succ_lt_succ hi
      rw [List.get_cons_succ]
      exact hhd h0
    | j + 1 =>
      rw [List.get_cons_succ, List.get_cons_succ]
      exact hcons j (by simpa using Nat.lt_of_succ_lt_succ hi)
  · intro i hi
    match i with
    | 0 => exact he
    | j + 1 =>
      exact hend2 j (by simpa using Nat.lt_of_succ_lt_succ hi)
  · intro c hc
    rcases List.mem_cons.mp hc with h | h
    · subst h
      exact ⟨h1, h2⟩
    · exact hbnd c h

theorem chunk_text_aux_wf (size overlap : ℕ) (hov : overlap < size)
    (text : List Char) :
    ∀ (fuel start : ℕ), text.length ≤ start + fuel → start < text.length →
    chunks_wf size overlap text.length start
      (chunk_text_aux size overlap text fuel start) := by
  intro fuel
  induction fuel with
  | zero =>
    intro start h1 h2
    omega
  | succ n ih =>
    intro start h1 h2
    by_cases hend : text.length ≤ min (start + size) text.length
    · have hstep : chunk_text_aux size overlap text (n + 1) start
          = [⟨(text.drop start).take (min (start + size) text.length - start),
              start, min (start + size) text.length⟩] := by
        simp only [chunk_text_aux]
        rw [if_pos h2, if_pos hend]
      rw [hstep]
      exact chunks_wf_singleton size overlap text.length start _ _
        (lt_min (by omega) h2) (min_le_right _ _)
    · push_neg at hend
      have hlt : start + size < text.length := by
        rcases le_total (start + size) text.length with h | h
        · rwa [min_eq_left h] at hend
        · rw [min_eq_right h] at hend
          omega
      have hmin : min (start + size) text.length = start + size :=
        min_eq_left (le_of_lt hlt)
      have hstep : chunk_text_aux size overlap text (n + 1) start
          = ⟨(text.drop start).take (min (start + size) text.length - start),
              start, min (start + size) text.length⟩
            :: chunk_text_aux size overlap text n (start + (size - overlap)) := by
        simp only [chunk_text_aux]
        rw [if_pos h2, if_neg (by omega)]
      rw [hstep]
      exact chunks_wf_cons size overlap text.length start _ _ _
        (ih (start + (size - overlap)) (by omega) (by omega))
        hmin (lt_min (by omega) h2) (min_le_right _ _)

/-- C2: for non-empty text, the chunking stage with size 500 and overlap 50
stores rows whose `chunk_index` set is exactly `{0,…,N−1}`; the first chunk
starts at 0, each successive chunk starts 450 = 500 − 50 later, every chunk
with a successor spans exactly 500 characters, and every chunk satisfies
`char_end > char_start`. -/
theorem chunking_claim (text : List Char) (hne : text ≠ []) :
    ((chunk_rows text).map Prod.fst
      = List.range (chunk_text text CHUNK_SIZE CHUNK_OVERLAP).length)
    ∧ 0 < (chunk_text text CHUNK_SIZE CHUNK_OVERLAP).length
    ∧ (∀ (h0 : 0 < (chunk_text text CHUNK_SIZE CHUNK_OVERLAP).length),
        ((chunk_text text CHUNK_SIZE CHUNK_OVERLAP).get ⟨0, h0⟩).char_start = 0)
    ∧ (∀ (i : ℕ)
        (hi : i + 1 < (chunk_text text CHUNK_SIZE CHUNK_OVERLAP).length),
        ((chunk_text text CHUNK_SIZE CHUNK_OVERLAP).get ⟨i + 1, hi⟩).char_start
          = ((chunk_text text CHUNK_SIZE CHUNK_OVERLAP).get
              ⟨i, Nat.lt_of_succ_lt hi⟩).char_start + (CHUNK_SIZE - CHUNK_OVERLAP))
    ∧ (∀ (i : ℕ)
        (hi : i + 1 < (chunk_text text CHUNK_SIZE CHUNK_OVERLAP).length),
        ((chunk_text text CHUNK_SIZE CHUNK_OVERLAP).get
            ⟨i, Nat.lt_of_succ_lt hi⟩).char_end
          = ((chunk_text text CHUNK_SIZE CHUNK_OVERLAP).get
              ⟨i, Nat.lt_of_succ_lt hi⟩).char_start + CHUNK_SIZE)
    ∧ (∀ c ∈ chunk_text text CHUNK_SIZE CHUNK_OVERLAP,
        c.char_start < c.char_end) := by
  have hpos : 0 < text.length := List.length_pos.mpr hne
  obtain ⟨h1, h2, h3, h4, h5⟩ := chunk_text_aux_wf CHUNK_SIZE CHUNK_OVERLAP
    (by norm_num [CHUNK_SIZE, CHUNK_OVERLAP]) text (text.length + 1) 0
    (by omega) hpos
  exact ⟨by simp [chunk_rows, List.enum_map_fst], h1, h2, h3, h4,
    fun c hc => (h5 c hc).1⟩

/-- Witness for C2 at a concrete 600-character text. -/
theorem chunking_claim_witness :
    (List.replicate 600 'a' ≠ [])
    ∧ (∀ c ∈ chunk_text (List.replicate 600 'a') CHUNK_SIZE CHUNK_OVERLAP,
        c.char_start < c.char_end) :=
  have hne : List.replicate 600 'a' ≠ [] :=
    List.ne_nil_of_length_pos (by rw [List.length_replicate]; norm_num)
  ⟨hne, (chunking_claim (List.replicate 600 'a') hne).2.2.2.2.2⟩

/-! ## C3: DTC confidence recalculation -/

theorem flatMap_eq_map_of_singleton (g : String → List ℚ) (trust : String → ℚ) :
    ∀ (ls : List String), (∀ c ∈ ls, g c = [trust c]) →
    ls.flatMap g = ls.map trust := by
  intro ls
  induction ls with
  | nil => intro _; rfl
  | cons c t ih =>
    intro h
    have hc := h c (List.mem_cons_self c t)
    have ht := ih (fun x hx => h x (List.mem_cons_of_mem c hx))
    simp only [List.flatMap_cons, List.map_cons, hc, ht]
    rfl

theorem join_trust_scores_eq (srcs : List (String × String))
    (evals : List (String × ℚ)) (dtcId : String) (trust : String → ℚ)
    (h : ∀ c ∈ (srcs.filter (fun l => l.1 = dtcId)).map (fun l => l.2),
      (evals.filter (fun e => e.1 = c)).map (fun e => e.2) = [trust c]) :
    join_trust_scores srcs evals dtcId
      = ((srcs.filter (fun l => l.1 = dtcId)).map (fun l => l.2)).map trust := by
  unfold join_trust_scores
  rw [← flatMap_eq_map_of_singleton (fun c => (evals.filter (fun e => e.1 = c)).map
    (fun e => e.2)) trust _ h]
  induction srcs.filter (fun l => l.1 = dtcId) with
  | nil => rfl
  | cons l t ih => simp only [List.flatMap_cons, List.map_cons, ih]

/-- C3: after the resolve stage's confidence recalculation, every DTC row
whose linked chunks each carry exactly one evaluation (and which has at
least one linked chunk) gets
`confidence = min(1, 0.3·min(1, source_count/5) + 0.7·avg_trust)` with
`avg_trust` the average trust over the linked chunks; the recalculation
rewrites each row in place; and a DTC with `source_count = 1` and a single
linked chunk of trust 0.8 gets confidence 0.62. -/
theorem recalc_dtc_confidence_claim :
    (∀ (d : DtcRow) (srcs : List (String × String)) (evals : List (String × ℚ))
      (trust : String → ℚ),
      (srcs.filter (fun l => l.1 = d.id)).map (fun l => l.2) ≠ [] →
      (∀ c ∈ (srcs.filter (fun l => l.1 = d.id)).map (fun l => l.2),
        (evals.filter (fun e => e.1 = c)).map (fun e => e.2) = [trust c]) →
      new_dtc_confidence d srcs evals
        = min 1 (0.3 * min 1 ((d.source_count : ℚ) / 5)
          + 0.7 * ((((srcs.filter (fun l => l.1 = d.id)).map (fun l => l.2)).map
                trust).sum
            / ((srcs.filter (fun l => l.1 = d.id)).map (fun l => l.2)).length)))
    ∧ (∀ (dtcs : List DtcRow) (srcs : List (String × String))
        (evals : List (String × ℚ)) (i : ℕ) (hi : i < dtcs.length),
        (recalculate_dtc_confidence dtcs srcs evals).get
            ⟨i, by simpa [recalculate_dtc_confidence] using hi⟩
          = { dtcs.get ⟨i, hi⟩ with
              confidence_score := new_dtc_confidence (dtcs.get ⟨i, hi⟩) srcs evals })
    ∧ new_dtc_confidence ⟨"dtc-1", 1, 0⟩ [("dtc-1", "chunk-1")]
        [("chunk-1", 0.8)] = 0.62 := by
  refine ⟨?_, ?_, ?_⟩
  · intro d srcs evals trust hne h
    unfold new_dtc_confidence
    rw [join_trust_scores_eq srcs evals d.id trust h]
    unfold avg_or_half
    rw [if_neg (by simpa using hne)]
    rw [List.length_map]
  · intro dtcs srcs evals i hi
    simp only [recalculate_dtc_confidence, List.get_eq_getElem,
      List.getElem_map]
  · unfold new_dtc_confidence join_trust_scores avg_or_half
    norm_num [List.filter]

/-- Witness for C3: a DTC with one source and one linked chunk of trust 0.8
satisfies the hypotheses of the claim, and the formula yields 0.62. -/
theorem recalc_dtc_confidence_claim_witness :
    (([("dtc-1", "chunk-1")].filter
        (fun l => l.1 = "dtc-1")).map (fun l => l.2) ≠ [] )
    ∧ new_dtc_confidence ⟨"dtc-1", 1, 0⟩ [("dtc-1", "chunk-1")]
        [("chunk-1", 0.8)]
      = min 1 (0.3 * min 1 (((1 : ℕ) : ℚ) / 5)
        + 0.7 * (((([("dtc-1", "chunk-1")].filter
              (fun l => l.1 = "dtc-1")).map (fun l => l.2)).map
              (fun _ => (0.8 : ℚ))).sum
          / (([("dtc-1", "chunk-1")].filter
              (fun l => l.1 = "dtc-1")).map (fun l => l.2)).length)) := by
  refine ⟨by simp, ?_⟩
  exact recalc_dtc_confidence_claim.1 ⟨"dtc-1", 1, 0⟩ [("dtc-1", "chunk-1")]
    [("chunk-1", 0.8)] (fun _ => (0.8 : ℚ)) (by simp)
    (by intro c hc; simp at hc; subst hc; simp [List.filter])

/-! ## C10: verification with an empty fields object -/

/-- C10: when the parsed verification response has an empty or missing
`fields` object, the all-fields-confirmed check holds vacuously, so the
DTC is marked `verified` and `verified_at` is stamped, while the
confidence adjustment is clamped to [−0.3, 0.3] and the resulting
confidence is clamped to [0, 1]. -/
theorem verify_empty_fields_claim (adjRaw conf : ℚ) :
    (process_verification_result [] adjRaw conf).status = "verified"
    ∧ (process_verification_result [] adjRaw conf).verified_at_set = true
    ∧ -0.3 ≤ (process_verification_result [] adjRaw conf).adjustment
    ∧ (process_verification_result [] adjRaw conf).adjustment ≤ 0.3
    ∧ 0 ≤ (process_verification_result [] adjRaw conf).new_confidence
    ∧ (process_verification_result [] adjRaw conf).new_confidence ≤ 1 := by
  unfold process_verification_result
  refine ⟨by simp, rfl, le_max_left _ _,
    max_le (by norm_num) (min_le_left _ _), le_max_left _ _,
    max_le (by norm_num) (min_le_left _ _)⟩

/-! ## C9: healing agent gating -/

/-- C9: a remediation action is executed only when the proposed action
passes the allow list, the rate limit and the idempotency gate pass, and
the confidence is at least 0.7; in every other case no action is
executed; and each decision — executed, deferred or escalated — is
persisted as exactly one healing-log row (an idempotency skip returns
without logging, and a failed LLM analysis logs a `skipped` row). -/
theorem healer_gating_claim :
    (∀ (parsed : Option HealAlert) (idemOk : Bool)
      (analysis : Option HealAnalysis) (allow deny : List String)
      (rateOk autoFix execOk : Bool),
      (process_alert parsed idemOk analysis allow deny rateOk autoFix
        execOk).executed = true →
      idemOk = true ∧ rateOk = true
        ∧ ∃ an, analysis = some an
            ∧ is_action_allowed allow deny an.action = true
            ∧ (0.7 : ℚ) ≤ an.confidence)
    ∧ (∀ (alert : HealAlert) (an : HealAnalysis) (allow deny : List String)
        (rateOk autoFix execOk : Bool),
        (is_action_allowed allow deny an.action = false →
          process_alert (some alert) true (some an) allow deny rateOk autoFix
              execOk
            = ⟨false, [⟨alert.id, an.action, alert.component, "escalated",
                some "Action not auto-approved", none⟩]⟩)
        ∧ (is_action_allowed allow deny an.action = true → rateOk = false →
          process_alert (some alert) true (some an) allow deny rateOk autoFix
              execOk
            = ⟨false, [⟨alert.id, an.action, alert.component, "deferred",
                some "Rate limit exceeded", none⟩]⟩)
        ∧ (is_action_allowed allow deny an.action = true → rateOk = true →
          autoFix = true → (0.7 : ℚ) ≤ an.confidence →
          process_alert (some alert) true (some an) allow deny rateOk autoFix
              execOk
            = ⟨true, [⟨alert.id, an.action, alert.component, "executed",
                none, some execOk⟩]⟩)
        ∧ (is_action_allowed allow deny an.action = true → rateOk = true →
          ¬ (autoFix = true ∧ (0.7 : ℚ) ≤ an.confidence) →
          process_alert (some alert) true (some an) allow deny rateOk autoFix
              execOk
            = ⟨false, [⟨alert.id, an.action, alert.component, "escalated",
                some "Low confidence or auto-fix disabled", none⟩]⟩))
    ∧ (∀ (alert : HealAlert) (allow deny : List String)
        (rateOk autoFix execOk : Bool),
        process_alert (some alert) true none allow deny rateOk autoFix execOk
          = ⟨false, [⟨alert.id, "analysis_failed", alert.component, "skipped",
              some "LLM analysis failed", none⟩]⟩)
    ∧ (∀ (parsed : Option HealAlert) (analysis : Option HealAnalysis)
        (allow deny : List String) (rateOk autoFix execOk : Bool),
        process_alert parsed false analysis allow deny rateOk autoFix execOk
          = ⟨false, []⟩) := by
  refine ⟨?_, ?_, ?_, ?_⟩
  · intro parsed idemOk analysis allow deny rateOk autoFix execOk h
    match parsed with
    | none => simp [process_alert] at h
    | some alert =>
      match idemOk with
      | false => simp [process_alert] at h
      | true =>
        match analysis with
        | none => simp [process_alert] at h
        | some an =>
          by_cases ha : is_action_allowed allow deny an.action = true
          · by_cases hr : rateOk = true
            · by_cases hx : (autoFix && decide ((0.7 : ℚ) ≤ an.confidence)) = true
              · refine ⟨rfl, hr, an, rfl, ha, ?_⟩
                simp only [Bool.and_eq_true, decide_eq_true_eq] at hx
                exact hx.2
              · exfalso
                simp [process_alert, ha, hr, hx] at h
            · exfalso
              simp [process_alert, ha, hr] at h
          · exfalso
            simp [process_alert, ha] at h
  · intro alert an allow deny rateOk autoFix execOk
    refine ⟨?_, ?_, ?_, ?_⟩
    · intro ha
      simp [process_alert, ha]
    · intro ha hr
      simp [process_alert, ha, hr]
    · intro ha hr hf hc
      simp [process_alert, ha, hr, hf, hc]
    · intro ha hr hx
      have hx2 : (autoFix && decide ((0.7 : ℚ) ≤ an.confidence)) = false := by
        cases hauto : autoFix
        · simp
        · simp only [Bool.true_and]
          rw [decide_eq_false_iff_not]
          intro hcon
          exact hx ⟨hauto, hcon⟩
      simp [process_alert, ha, hr, hx2]
  · intro alert allow deny rateOk autoFix execOk
    simp [process_alert]
  · intro parsed analysis allow deny rateOk autoFix execOk
    match parsed with
    | none => rfl
    | some alert => simp [process_alert]

/-- Witness for C9: a concrete allow-listed action with confidence 0.9 is
executed and logged with decision `executed`. -/
theorem healer_gating_claim_witness :
    is_action_allowed ["restart_worker"] ["restart_container"]
        "restart_worker" = true
    ∧ (0.7 : ℚ) ≤ 0.9
    ∧ process_alert (some ⟨"a1", "queue_stall", "high", "worker-chunking"⟩)
        true (some ⟨"restart_worker", 0.9, "stalled"⟩) ["restart_worker"]
        ["restart_container"] true true true
      = ⟨true, [⟨"a1", "restart_worker", "worker-chunking", "executed",
          none, some true⟩]⟩ :=
  ⟨by decide, by norm_num,
    ((healer_gating_claim.2.1 ⟨"a1", "queue_stall", "high", "worker-chunking"⟩
        ⟨"restart_worker", 0.9, "stalled"⟩ ["restart_worker"]
        ["restart_container"] true true true).2.2.1
      (by decide) rfl rfl (by norm_num))⟩

/-! ## C8: stage transition -/

/-- C8 (amended): a document-stage transition commits the processing-stage
update and the processing-log insert as two separate single-statement
transactions (never one joint transaction); the queue push is attempted
only after the stage-update transaction has committed (on success the
state is exactly the two committed transactions followed by the queue
append); and if the push fails the chunking worker's exception handler
moves the document to stage `error` and logs a failure, leaving the queue
untouched. -/
theorem stage_transition_claim :
    (∀ (st : SysState) (doc : String) (pushOk : Bool),
      ∀ t ∈ (chunking_transition st doc pushOk).txns,
        t ∈ st.txns ∨ t.length = 1)
    ∧ (∀ (st : SysState) (doc : String),
        chunking_transition st doc true
          = { txns := st.txns
                ++ [[.log_insert doc "chunking" "completed" (some "Created chunks")],
                    [.stage_update doc "embedding" none]],
              queue := st.queue ++ [doc] })
    ∧ (∀ (st : SysState) (doc : String),
        (chunking_transition st doc false).queue = st.queue
        ∧ doc_stage (chunking_transition st doc false) doc = some "error") := by
  have hT : ∀ (st : SysState) (doc : String),
      chunking_transition st doc true
        = { txns := st.txns
              ++ [[.log_insert doc "chunking" "completed" (some "Created chunks")],
                  [.stage_update doc "embedding" none]],
            queue := st.queue ++ [doc] } := by
    intro st doc
    simp [chunking_transition, advance_to_next_stage, log_processing,
      update_document_stage, execute_query, push_job]
  have hF : ∀ (st : SysState) (doc : String),
      chunking_transition st doc false
        = { txns := st.txns
              ++ [[.log_insert doc "chunking" "completed" (some "Created chunks")],
                  [.stage_update doc "embedding" none],
                  [.stage_update doc "error" (some "push failed")],
                  [.log_insert doc "chunking" "failed" (some "push failed")]],
            queue := st.queue } := by
    intro st doc
    simp [chunking_transition, advance_to_next_stage, log_processing,
      update_document_stage, execute_query, push_job]
  refine ⟨?_, hT, ?_⟩
  · intro st doc pushOk t ht
    cases pushOk
    · rw [hF st doc] at ht
      simp only [List.mem_append] at ht
      rcases ht with h | h
      · exact Or.inl h
      · right
        simp only [List.mem_cons, List.not_mem_nil, or_false] at h
        rcases h with rfl | rfl | rfl | rfl <;> rfl
    · rw [hT st doc] at ht
      simp only [List.mem_append] at ht
      rcases ht with h | h
      · exact Or.inl h
      · right
        simp only [List.mem_cons, List.not_mem_nil, or_false] at h
        rcases h with rfl | rfl <;> rfl
  · intro st doc
    rw [hF st doc]
    refine ⟨rfl, ?_⟩
    unfold doc_stage
    simp only [List.flatMap_append, List.foldl_append]
    simp [List.flatMap]

/-- Witness for C8: in the transition from an empty state, the
processing-log insert lands in its own single-statement transaction. -/
theorem stage_transition_claim_witness :
    ([DbWrite.log_insert "d" "chunking" "completed" (some "Created chunks")]
        ∈ (chunking_transition ⟨[], []⟩ "d" true).txns)
    ∧ ([DbWrite.log_insert "d" "chunking" "completed" (some "Created chunks")]
          ∈ (SysState.txns ⟨[], []⟩)
        ∨ [DbWrite.log_insert "d" "chunking" "completed"
            (some "Created chunks")].length = 1) :=
  ⟨by decide,
    stage_transition_claim.1 ⟨[], []⟩ "d" true
      [DbWrite.log_insert "d" "chunking" "completed" (some "Created chunks")]
      (by decide)⟩

/-- C8 counterexample: from the empty state, no committed transaction of
the chunking transition contains both a stage update and a log insert
(they are separate transactions), and when the push fails the document
ends at stage `error`, not at the advanced stage `embedding`. -/
theorem stage_transition_not_single_txn :
    (∀ t ∈ (chunking_transition ⟨[], []⟩ "d" true).txns,
      ¬ (txn_has_stage_update t = true ∧ txn_has_log_insert t = true))
    ∧ doc_stage (chunking_transition ⟨[], []⟩ "d" false) "d" = some "error"
    ∧ some "error" ≠ some "embedding" := by
  refine ⟨by decide, by decide, by decide⟩

/-! ## Sorting and dedup lemmas -/

theorem mem_dedupFirst [DecidableEq α] (x : α) :
    ∀ (l : List α), x ∈ dedupFirst l ↔ x ∈ l := by
  intro l
  induction l with
  | nil => simp [dedupFirst]
  | cons y t ih =>
    simp only [dedupFirst, List.mem_cons, List.mem_filter, ih]
    constructor
    · rintro (rfl | ⟨h, _⟩)
      · exact Or.inl rfl
      · exact Or.inr h
    · rintro (rfl | h)
      · exact Or.inl rfl
      · by_cases hx : x = y
        · exact Or.inl hx
        · exact Or.inr ⟨h, by simpa using hx⟩

theorem nodup_dedupFirst [DecidableEq α] :
    ∀ (l : List α), (dedupFirst l).Nodup := by
  intro l
  induction l with
  | nil => simp [dedupFirst]
  | cons y t ih =>
    refine List.Pairwise.cons ?_ (List.Nodup.filter _ ih)
    intro z hz
    have := (List.mem_filter.mp hz).2
    simp only [decide_eq_true_eq] at this
    exact fun h => this h.symm

theorem isortInsert_perm (le : α → α → Bool) (x : α) :
    ∀ (l : List α), (isortInsert le x l).Perm (x :: l) := by
  intro l
  induction l with
  | nil => exact List.Perm.refl _
  | cons y t ih =>
    unfold isortInsert
    by_cases h : le x y = true
    · rw [if_pos h]
    · rw [if_neg h]
      exact (ih.cons y).trans (List.Perm.swap x y t)

theorem isortBy_perm (le : α → α → Bool) :
    ∀ (l : List α), (isortBy le l).Perm l := by
  intro l
  induction l with
  | nil => exact List.Perm.refl _
  | cons x t ih =>
    exact (isortInsert_perm le x (isortBy le t)).trans (ih.cons x)

theorem isortInsert_pairwise (le : α → α → Bool)
    (htot : ∀ a b, (le a b || le b a) = true)
    (htrans : ∀ a b c, le a b = true → le b c = true → le a c = true) (x : α) :
    ∀ (l : List α), l.Pairwise (fun a b => le a b = true) →
    (isortInsert le x l).Pairwise (fun a b => le a b = true) := by
  intro l
  induction l with
  | nil =>
    intro _
    simp [isortInsert]
  | cons y t ih =>
    intro hp
    rcases List.pairwise_cons.mp hp with ⟨hy, ht⟩
    unfold isortInsert
    by_cases h : le x y = true
    · rw [if_pos h]
      refine List.Pairwise.cons ?_ hp
      intro z hz
      rcases List.mem_cons.mp hz with rfl | hz'
      · exact h
      · exact htrans x y z h (hy z hz')
    · rw [if_neg h]
      refine List.Pairwise.cons ?_ (ih ht)
      intro z hz
      have hz' := ((isortInsert_perm le x t).mem_iff).mp hz
      rcases List.mem_cons.mp hz' with heq | hz''
      · rw [heq]
        have := htot x y
        simp only [Bool.or_eq_true] at this
        rcases this with h1 | h1
        · exact absurd h1 h
        · exact h1
      · exact hy z hz''

theorem isortBy_pairwise (le : α → α → Bool)
    (htot : ∀ a b, (le a b || le b a) = true)
    (htrans : ∀ a b c, le a b = true → le b c = true → le a c = true) :
    ∀ (l : List α), (isortBy le l).Pairwise (fun a b => le a b = true) := by
  intro l
  induction l with
  | nil => simp [isortBy]
  | cons x t ih => exact isortInsert_pairwise le htot htrans x _ ih

theorem isortBy_ne_nil (le : α → α → Bool) (l : List α) (h : l ≠ []) :
    isortBy le l ≠ [] := by
  intro hc
  have := (isortBy_perm le l).length_eq
  rw [hc] at this
  exact h (List.length_eq_zero.mp this.symm)

theorem str_le_total : ∀ (a b : List Char), (str_le a b || str_le b a) = true := by
  intro a
  induction a with
  | nil =>
    intro b
    rfl
  | cons c cs ih =>
    intro b
    cases b with
    | nil => rfl
    | cons d ds =>
      simp only [str_le, Bool.or_eq_true, Bool.and_eq_true, decide_eq_true_eq]
      rcases Nat.lt_trichotomy c.toNat d.toNat with h | h | h
      · exact Or.inl (Or.inl h)
      · have := ih ds
        simp only [Bool.or_eq_true] at this
        rcases this with h1 | h1
        · exact Or.inl (Or.inr ⟨h, h1⟩)
        · exact Or.inr (Or.inr ⟨h.symm, h1⟩)
      · exact Or.inr (Or.inl h)

theorem str_le_trans : ∀ (a b c : List Char), str_le a b = true →
    str_le b c = true → str_le a c = true := by
  intro a
  induction a with
  | nil =>
    intro b c _ _
    rfl
  | cons x xs ih =>
    intro b c h1 h2
    cases b with
    | nil => simp [str_le] at h1
    | cons y ys =>
      cases c with
      | nil => simp [str_le] at h2
      | cons z zs =>
        simp only [str_le, Bool.or_eq_true, Bool.and_eq_true,
          decide_eq_true_eq] at h1 h2 ⊢
        rcases h1 with h1 | ⟨h1e, h1r⟩
        · rcases h2 with h2 | ⟨h2e, h2r⟩
          · exact Or.inl (lt_trans h1 h2)
          · exact Or.inl (by omega)
        · rcases h2 with h2 | ⟨h2e, h2r⟩
          · exact Or.inl (by omega)
          · exact Or.inr ⟨by omega, ih ys zs h1r h2r⟩

theorem gap_le_total : ∀ (a b : GapEntry), (gap_le a b || gap_le b a) = true := by
  intro a b
  simp only [gap_le, Bool.or_eq_true, Bool.and_eq_true, decide_eq_true_eq]
  rcases Nat.lt_trichotomy (prio_val a) (prio_val b) with h | h | h
  · exact Or.inl (Or.inl h)
  · have := str_le_total a.range.data b.range.data
    simp only [Bool.or_eq_true] at this
    rcases this with h1 | h1
    · exact Or.inl (Or.inr ⟨h, h1⟩)
    · exact Or.inr (Or.inr ⟨h.symm, h1⟩)
  · exact Or.inr (Or.inl h)

theorem gap_le_trans : ∀ (a b c : GapEntry), gap_le a b = true →
    gap_le b c = true → gap_le a c = true := by
  intro a b c h1 h2
  simp only [gap_le, Bool.or_eq_true, Bool.and_eq_true,
    decide_eq_true_eq] at h1 h2 ⊢
  rcases h1 with h1 | ⟨h1e, h1r⟩
  · rcases h2 with h2 | ⟨h2e, h2r⟩
    · exact Or.inl (lt_trans h1 h2)
    · exact Or.inl (by omega)
  · rcases h2 with h2 | ⟨h2e, h2r⟩
    · exact Or.inl (by omega)
    · exact Or.inr ⟨by omega, str_le_trans _ _ _ h1r h2r⟩

/-! ## C7: coverage gap detection -/

theorem window_label_inj (pr : String) (info : PrefixInfo)
    (hmem : (pr, info) ∈ DTC_PREFIXES) :
    ∀ hs1 ∈ window_starts info, ∀ hs2 ∈ window_starts info,
    range_label pr hs1 (min (hs1 + 99) (min info.range_end 999))
      = range_label pr hs2 (min (hs2 + 99) (min info.range_end 999)) →
    hs1 = hs2 := by
  simp only [DTC_PREFIXES, List.mem_cons, List.not_mem_nil, or_false] at hmem
  rcases hmem with h|h|h|h|h|h|h|h|h|h <;>
    (rw [Prod.mk.injEq] at h
     obtain ⟨h1, h2⟩ := h
     subst h1
     subst h2
     decide)

/-- C7: for each of the ten prefixes, a 100-wide window is flagged exactly
when it holds fewer than 5 parsed codes while the prefix has more than 10
distinct parsed codes overall; a flagged window with 0 codes carries
priority `high` and any other flagged window priority `medium`; a window
with 5 or more codes is never flagged; and the result is the top 30 gaps
of the union over prefixes, sorted by `(priority, range)`. -/
theorem coverage_gap_claim :
    (∀ (codes : List String) (pr : String) (info : PrefixInfo),
      (pr, info) ∈ DTC_PREFIXES → ∀ hs ∈ window_starts info,
      (mk_gap codes pr info hs ∈ gaps_for codes pr info
        ↔ (count_in_window (pxnumbers codes pr) hs
              (min (hs + 99) (min info.range_end 999)) < 5
            ∧ (pxnumbers codes pr).length > 10)))
    ∧ (∀ (codes : List String) (g : GapEntry), g ∈ all_gaps codes ↔
        ∃ pi ∈ DTC_PREFIXES, g ∈ gaps_for codes pi.1 pi.2)
    ∧ (∀ (codes : List String), ∀ g ∈ all_gaps codes,
        (g.existing_count = 0 → g.priority = "high")
        ∧ (g.existing_count ≠ 0 → g.priority = "medium")
        ∧ g.existing_count < 5)
    ∧ (∀ (codes : List String),
        find_gap_ranges codes = (isortBy gap_le (all_gaps codes)).take 30
        ∧ (isortBy gap_le (all_gaps codes)).Perm (all_gaps codes)
        ∧ (isortBy gap_le (all_gaps codes)).Pairwise
            (fun a b => gap_le a b = true)) := by
  have hgap_mem : ∀ (codes : List String) (pr : String) (info : PrefixInfo)
      (g : GapEntry), g ∈ gaps_for codes pr info ↔
      (pxnumbers codes pr ≠ []
        ∧ ∃ hs ∈ window_starts info,
          (count_in_window (pxnumbers codes pr) hs
              (min (hs + 99) (min info.range_end 999)) < 5
            ∧ (pxnumbers codes pr).length > 10)
          ∧ mk_gap codes pr info hs = g) := by
    intro codes pr info g
    unfold gaps_for
    by_cases hnil : pxnumbers codes pr = []
    · rw [if_pos hnil]
      simp [hnil]
    · rw [if_neg hnil]
      rw [List.mem_filterMap]
      constructor
      · rintro ⟨hs, hhs, heq⟩
        by_cases hcond : count_in_window (pxnumbers codes pr) hs
            (min (hs + 99) (min info.range_end 999)) < 5
            ∧ (pxnumbers codes pr).length > 10
        · rw [if_pos hcond] at heq
          exact ⟨hnil, hs, hhs, hcond, Option.some.inj heq⟩
        · rw [if_neg hcond] at heq
          exact absurd heq (Option.noConfusion)
      · rintro ⟨_, hs, hhs, hcond, heq⟩
        exact ⟨hs, hhs, by rw [if_pos hcond, heq]⟩
  refine ⟨?_, ?_, ?_, ?_⟩
  · intro codes pr info hmem hs hhs
    constructor
    · intro h
      rcases (hgap_mem codes pr info _).mp h with ⟨_, hs', hhs', hcond', heq'⟩
      have hr : range_label pr hs' (min (hs' + 99) (min info.range_end 999))
          = range_label pr hs (min (hs + 99) (min info.range_end 999)) :=
        congrArg GapEntry.range heq'
      have := window_label_inj pr info hmem hs' hhs' hs hhs hr
      subst this
      exact hcond'
    · intro hcond
      refine (hgap_mem codes pr info _).mpr ⟨?_, hs, hhs, hcond, rfl⟩
      intro hnil
      rw [hnil] at hcond
      simp at hcond
  · intro codes g
    unfold all_gaps
    rw [List.mem_flatMap]
  · intro codes g hg
    rcases List.mem_flatMap.mp hg with ⟨pi, _, hgf⟩
    rcases (hgap_mem codes pi.1 pi.2 g).mp hgf with ⟨_, hs, _, hcond, heq⟩
    subst heq
    refine ⟨?_, ?_, hcond.1⟩
    · intro h0
      have h1 : count_in_window (pxnumbers codes pi.1) hs
          (min (hs + 99) (min pi.2.range_end 999)) = 0 := h0
      show (if count_in_window (pxnumbers codes pi.1) hs
          (min (hs + 99) (min pi.2.range_end 999)) = 0
        then "high" else "medium") = "high"
      rw [if_pos h1]
    · intro h0
      have h1 : ¬ count_in_window (pxnumbers codes pi.1) hs
          (min (hs + 99) (min pi.2.range_end 999)) = 0 := h0
      show (if count_in_window (pxnumbers codes pi.1) hs
          (min (hs + 99) (min pi.2.range_end 999)) = 0
        then "high" else "medium") = "medium"
      rw [if_neg h1]
  · intro codes
    exact ⟨rfl, isortBy_perm gap_le (all_gaps codes),
      isortBy_pairwise gap_le gap_le_total gap_le_trans (all_gaps codes)⟩

/-- Witness for C7: with eleven distinct P01xx codes stored, the P0 window
200–299 holds 0 codes while the prefix has 11 > 10, so its gap entry is
flagged. -/
theorem coverage_gap_claim_witness :
    (("P0", (⟨0, 999, "Powertrain (generic)"⟩ : PrefixInfo)) ∈ DTC_PREFIXES)
    ∧ (200 ∈ window_starts ⟨0, 999, "Powertrain (generic)"⟩)
    ∧ (count_in_window (pxnumbers ["P0100", "P0101", "P0102", "P0103",
          "P0104", "P0105", "P0106", "P0107", "P0108", "P0109", "P0110"] "P0")
          200 (min (200 + 99) (min 999 999)) < 5
      ∧ (pxnumbers ["P0100", "P0101", "P0102", "P0103", "P0104", "P0105",
          "P0106", "P0107", "P0108", "P0109", "P0110"] "P0").length > 10)
    ∧ mk_gap ["P0100", "P0101", "P0102", "P0103", "P0104", "P0105", "P0106",
          "P0107", "P0108", "P0109", "P0110"] "P0"
          ⟨0, 999, "Powertrain (generic)"⟩ 200
        ∈ gaps_for ["P0100", "P0101", "P0102", "P0103", "P0104", "P0105",
          "P0106", "P0107", "P0108", "P0109", "P0110"] "P0"
          ⟨0, 999, "Powertrain (generic)"⟩ :=
  ⟨by decide, by decide, by decide,
    (coverage_gap_claim.1 ["P0100", "P0101", "P0102", "P0103", "P0104",
        "P0105", "P0106", "P0107", "P0108", "P0109", "P0110"] "P0"
        ⟨0, 999, "Powertrain (generic)"⟩ (by decide) 200 (by decide)).mpr
      (by decide)⟩

/-! ## C5: numeric-range merging -/

theorem field_conflict_short (vs : List ℚ) (h : vs.length ≤ 1) :
    field_conflict vs = false := by
  match vs with
  | [] => rfl
  | [v] => rfl
  | v1 :: v2 :: t => simp at h

theorem assoc_set_self : ∀ (l : List (String × ℚ)) (f : String) (v : ℚ),
    assoc_lookup (set_field l f v) f = some v := by
  intro l f v
  induction l with
  | nil => simp [set_field, assoc_lookup, List.find?]
  | cons p t ih =>
    obtain ⟨g, w⟩ := p
    by_cases h : g = f
    · simp [set_field, h, assoc_lookup, List.find?]
    · unfold set_field
      rw [if_neg h]
      unfold assoc_lookup at ih ⊢
      rw [List.find?_cons_of_neg _ (by simpa using h)]
      exact ih

theorem assoc_set_ne : ∀ (l : List (String × ℚ)) (g : String) (v : ℚ)
    (f : String), f ≠ g →
    assoc_lookup (set_field l g v) f = assoc_lookup l f := by
  intro l g v f hne
  induction l with
  | nil =>
    unfold set_field assoc_lookup
    rw [List.find?_cons_of_neg _
      (by simp only [decide_eq_true_eq]; exact fun hh => hne hh.symm)]
  | cons p t ih =>
    obtain ⟨k, w⟩ := p
    unfold set_field
    by_cases h : k = g
    · rw [if_pos h]
      unfold assoc_lookup
      rw [List.find?_cons_of_neg _
          (by simp only [decide_eq_true_eq]; exact fun hh => hne hh.symm),
        List.find?_cons_of_neg _
          (by simp only [decide_eq_true_eq]; rw [h]; exact fun hh => hne hh.symm)]
    · rw [if_neg h]
      unfold assoc_lookup at ih ⊢
      by_cases hk : k = f
      · rw [List.find?_cons_of_pos _ (by simpa using hk),
          List.find?_cons_of_pos _ (by simpa using hk)]
      · rw [List.find?_cons_of_neg _ (by simpa using hk),
          List.find?_cons_of_neg _ (by simpa using hk)]
        exact ih

theorem step_flag (sorted : List NCand) (acc : List (String × ℚ) × Bool)
    (g : String) :
    (merge_fields_step sorted acc g).2
      = (acc.2 || field_conflict (collect_values sorted g)) := by
  unfold merge_fields_step
  by_cases h : (collect_values sorted g).length ≤ 1
  · rw [if_pos h, field_conflict_short _ h]
    simp
  · rw [if_neg h]
    by_cases h1 : ((acc.2 || field_conflict (collect_values sorted g))
        && str_ends_with g.data "_min".data) = true
    · rw [if_pos h1]
    · rw [if_neg h1]
      by_cases h2 : ((acc.2 || field_conflict (collect_values sorted g))
          && str_ends_with g.data "_max".data) = true
      · rw [if_pos h2]
      · rw [if_neg h2]

theorem step_lookup_ne (sorted : List NCand) (acc : List (String × ℚ) × Bool)
    (g f : String) (hne : f ≠ g) :
    assoc_lookup (merge_fields_step sorted acc g).1 f = assoc_lookup acc.1 f := by
  unfold merge_fields_step
  by_cases h : (collect_values sorted g).length ≤ 1
  · rw [if_pos h]
  · rw [if_neg h]
    by_cases h1 : ((acc.2 || field_conflict (collect_values sorted g))
        && str_ends_with g.data "_min".data) = true
    · rw [if_pos h1]
      exact assoc_set_ne _ _ _ _ hne
    · rw [if_neg h1]
      by_cases h2 : ((acc.2 || field_conflict (collect_values sorted g))
          && str_ends_with g.data "_max".data) = true
      · rw [if_pos h2]
        exact assoc_set_ne _ _ _ _ hne
      · rw [if_neg h2]

theorem merge_fold_flag (sorted : List NCand) :
    ∀ (fields : List String) (acc : List (String × ℚ) × Bool),
    (List.foldl (merge_fields_step sorted) acc fields).2
      = (acc.2 || fields.any (fun g => field_conflict (collect_values sorted g))) := by
  intro fields
  induction fields with
  | nil =>
    intro acc
    simp
  | cons g t ih =>
    intro acc
    rw [List.foldl_cons, ih, step_flag]
    simp [Bool.or_assoc]

theorem merge_fold_lookup_not_mem (sorted : List NCand) :
    ∀ (fields : List String) (acc : List (String × ℚ) × Bool) (f : String),
    f ∉ fields →
    assoc_lookup (List.foldl (merge_fields_step sorted) acc fields).1 f
      = assoc_lookup acc.1 f := by
  intro fields
  induction fields with
  | nil =>
    intro acc f _
    rfl
  | cons g t ih =>
    intro acc f hf
    rw [List.foldl_cons, ih _ _ (fun h => hf (List.mem_cons_of_mem g h)),
      step_lookup_ne sorted acc g f (fun h => hf (h ▸ List.mem_cons_self g t))]

theorem merge_fold_lookup (sorted : List NCand) :
    ∀ (fields : List String) (acc : List (String × ℚ) × Bool) (i : ℕ)
      (hi : i < fields.length), fields.Nodup →
    assoc_lookup (List.foldl (merge_fields_step sorted) acc fields).1 fields[i]
      = (if (collect_values sorted fields[i]).length ≤ 1 then
          assoc_lookup acc.1 fields[i]
        else if (acc.2 || (fields.take (i + 1)).any
              (fun g => field_conflict (collect_values sorted g)))
            && str_ends_with (fields[i]).data "_min".data then
          some (list_min (collect_values sorted fields[i]))
        else if (acc.2 || (fields.take (i + 1)).any
              (fun g => field_conflict (collect_values sorted g)))
            && str_ends_with (fields[i]).data "_max".data then
          some (list_max (collect_values sorted fields[i]))
        else assoc_lookup acc.1 fields[i]) := by
  intro fields
  induction fields with
  | nil =>
    intro acc i hi
    simp at hi
  | cons g t ih =>
    intro acc i hi hnd
    rcases List.nodup_cons.mp hnd with ⟨hg, hndt⟩
    match i with
    | 0 =>
      simp only [List.getElem_cons_zero]
      rw [List.foldl_cons, merge_fold_lookup_not_mem sorted t _ g hg]
      unfold merge_fields_step
      have htake : ((g :: t).take 1).any
          (fun g0 => field_conflict (collect_values sorted g0))
          = field_conflict (collect_values sorted g) := by
        simp
      by_cases h : (collect_values sorted g).length ≤ 1
      · rw [if_pos h, if_pos h]
      · rw [if_neg h, if_neg h, htake]
        by_cases h1 : ((acc.2 || field_conflict (collect_values sorted g))
            && str_ends_with g.data "_min".data) = true
        · rw [if_pos h1, if_pos h1]
          exact assoc_set_self _ _ _
        · rw [if_neg h1, if_neg h1]
          by_cases h2 : ((acc.2 || field_conflict (collect_values sorted g))
              && str_ends_with g.data "_max".data) = true
          · rw [if_pos h2, if_pos h2]
            exact assoc_set_self _ _ _
          · rw [if_neg h2, if_neg h2]
    | j + 1 =>
      simp only [List.getElem_cons_succ]
      rw [List.foldl_cons]
      have hjlt : j < t.length := Nat.lt_of_succ_lt_succ hi
      have hmem : t[j] ∈ t := List.getElem_mem hjlt
      have hne : t[j] ≠ g := fun h => hg (h ▸ hmem)
      have hb : ((merge_fields_step sorted acc g).2
            || (t.take (j + 1)).any
              (fun g0 => field_conflict (collect_values sorted g0)))
          = (acc.2 || ((g :: t).take (j + 1 + 1)).any
              (fun g0 => field_conflict (collect_values sorted g0))) := by
        rw [step_flag]
        simp [Bool.or_assoc]
      have hih := ih (merge_fields_step sorted acc g) j hjlt hndt
      rw [hih, step_lookup_ne sorted acc g _ hne, hb]

/-- C5 (amended): with at most one candidate `merge_numeric_ranges` returns
the input unchanged with no conflict. With two or more candidates it sorts
by score descending and copies the best candidate; for each listed field
the per-field disagreement rule (`field_conflict`: some later present
value differs from the first present value by more than 20 % relative, or
is non-zero while the first is zero) feeds a conflict flag that is sticky
across the listed fields in order; a `*_min` (resp. `*_max`) field with at
least two present values takes the minimum (resp. maximum) across
candidates exactly when some field up to and including it has conflicted —
not only when the field itself conflicts; every other field, and every
field not listed, keeps the best candidate's value; the returned flag is
set exactly when some listed field conflicts, and it is also stored on the
merged entity as `conflict_flag`. -/
theorem merge_numeric_claim :
    (∀ (vf : List String), merge_numeric_ranges [] vf = (default, false))
    ∧ (∀ (c : NCand) (vf : List String), merge_numeric_ranges [c] vf = (c, false))
    ∧ (∀ (c1 c2 : NCand) (rest : List NCand) (vf : List String),
        (merge_numeric_ranges (c1 :: c2 :: rest) vf).1.conflict_flag
          = (merge_numeric_ranges (c1 :: c2 :: rest) vf).2
        ∧ (merge_numeric_ranges (c1 :: c2 :: rest) vf).2
          = vf.any (fun f => field_conflict
              (collect_values (isortBy nscore_desc (c1 :: c2 :: rest)) f))
        ∧ ((isortBy nscore_desc (c1 :: c2 :: rest)).headD default
            ∈ (c1 :: c2 :: rest)
          ∧ (∀ c ∈ (c1 :: c2 :: rest), c.score
              ≤ ((isortBy nscore_desc (c1 :: c2 :: rest)).headD default).score)
          ∧ (merge_numeric_ranges (c1 :: c2 :: rest) vf).1.id
            = ((isortBy nscore_desc (c1 :: c2 :: rest)).headD default).id)
        ∧ (vf.Nodup → ∀ (i : ℕ) (hi : i < vf.length),
            lookup_field (merge_numeric_ranges (c1 :: c2 :: rest) vf).1 vf[i]
              = (if (collect_values (isortBy nscore_desc (c1 :: c2 :: rest))
                    vf[i]).length ≤ 1 then
                  lookup_field
                    ((isortBy nscore_desc (c1 :: c2 :: rest)).headD default)
                    vf[i]
                else if ((vf.take (i + 1)).any (fun g => field_conflict
                      (collect_values (isortBy nscore_desc (c1 :: c2 :: rest)) g)))
                    && str_ends_with (vf[i]).data "_min".data then
                  some (list_min (collect_values
                    (isortBy nscore_desc (c1 :: c2 :: rest)) vf[i]))
                else if ((vf.take (i + 1)).any (fun g => field_conflict
                      (collect_values (isortBy nscore_desc (c1 :: c2 :: rest)) g)))
                    && str_ends_with (vf[i]).data "_max".data then
                  some (list_max (collect_values
                    (isortBy nscore_desc (c1 :: c2 :: rest)) vf[i]))
                else lookup_field
                  ((isortBy nscore_desc (c1 :: c2 :: rest)).headD default)
                  vf[i]))
        ∧ (∀ (f : String), f ∉ vf →
            lookup_field (merge_numeric_ranges (c1 :: c2 :: rest) vf).1 f
              = lookup_field
                ((isortBy nscore_desc (c1 :: c2 :: rest)).headD default) f)) := by
  refine ⟨fun vf => rfl, fun c vf => rfl, ?_⟩
  intro c1 c2 rest vf
  have hsne : isortBy nscore_desc (c1 :: c2 :: rest) ≠ [] :=
    isortBy_ne_nil nscore_desc _ (by simp)
  refine ⟨rfl, ?_, ?_, ?_, ?_⟩
  · show (vf.foldl (merge_fields_step (isortBy nscore_desc (c1 :: c2 :: rest)))
        (((isortBy nscore_desc (c1 :: c2 :: rest)).headD default).fields,
          false)).2 = _
    rw [merge_fold_flag]
    simp
  · constructor
    · match hs : isortBy nscore_desc (c1 :: c2 :: rest) with
      | [] => exact absurd hs hsne
      | w :: tl =>
        have hw : w ∈ isortBy nscore_desc (c1 :: c2 :: rest) := by
          rw [hs]
          exact List.mem_cons_self w tl
        exact ((isortBy_perm nscore_desc _).mem_iff).mp hw
    constructor
    · intro c hc
      match hs : isortBy nscore_desc (c1 :: c2 :: rest) with
      | [] => exact absurd hs hsne
      | w :: tl =>
        have hmem : c ∈ w :: tl := by
          rw [← hs]
          exact ((isortBy_perm nscore_desc (c1 :: c2 :: rest)).mem_iff).mpr hc
        have hpw := isortBy_pairwise nscore_desc
          (fun a b => by
            simp only [nscore_desc, Bool.or_eq_true, decide_eq_true_eq]
            exact le_total b.score a.score)
          (fun a b c hab hbc => by
            simp only [nscore_desc, decide_eq_true_eq] at hab hbc ⊢
            exact le_trans hbc hab)
          (c1 :: c2 :: rest)
        rw [hs] at hpw
        rcases List.mem_cons.mp hmem with heq | hmem'
        · rw [heq]
          exact le_rfl
        · have := (List.pairwise_cons.mp hpw).1 c hmem'
          simp only [nscore_desc, decide_eq_true_eq] at this
          exact this
    · rfl
  · intro hnd i hi
    show assoc_lookup (vf.foldl
        (merge_fields_step (isortBy nscore_desc (c1 :: c2 :: rest)))
        (((isortBy nscore_desc (c1 :: c2 :: rest)).headD default).fields,
          false)).1 vf[i] = _
    rw [merge_fold_lookup _ vf _ i hi hnd]
    simp only [Bool.false_or]
    rfl
  · intro f hf
    show assoc_lookup (vf.foldl
        (merge_fields_step (isortBy nscore_desc (c1 :: c2 :: rest)))
        (((isortBy nscore_desc (c1 :: c2 :: rest)).headD default).fields,
          false)).1 f = _
    rw [merge_fold_lookup_not_mem _ vf _ f hf]
    rfl

/-- C5 counterexample: for candidates A (score 2, `a` = 10, `b_min` = 5)
and B (score 1, `a` = 20, `b_min` = 4.5) with value fields
`["a", "b_min"]`, the field `b_min` does not itself conflict (4.5 differs
from 5 by 10 % < 20 %), yet the merged entity carries `b_min` = 4.5 — the
minimum — instead of the best candidate's 5, because the conflict flag set
by field `a` is sticky. The claimed per-field "when and only when" is
false. -/
theorem merge_numeric_sticky_counterexample :
    field_conflict (collect_values (isortBy nscore_desc
        [⟨"A", 2, [("a", 10), ("b_min", 5)], false⟩,
         ⟨"B", 1, [("a", 20), ("b_min", 9/2)], false⟩]) "b_min") = false
    ∧ lookup_field (⟨"A", 2, [("a", 10), ("b_min", 5)], false⟩ : NCand)
        "b_min" = some 5
    ∧ lookup_field (merge_numeric_ranges
        [⟨"A", 2, [("a", 10), ("b_min", 5)], false⟩,
         ⟨"B", 1, [("a", 20), ("b_min", 9/2)], false⟩]
        ["a", "b_min"]).1 "b_min" = some (9/2)
    ∧ some ((9 : ℚ)/2) ≠ some (5 : ℚ) := by
  have e1 : str_ends_with "a".data "_min".data = false := by decide
  have e2 : str_ends_with "a".data "_max".data = false := by decide
  have e3 : str_ends_with "b_min".data "_min".data = true := by decide
  have s1 : decide ("a" = "b_min") = false := by decide
  have s2 : decide ("b_min" = "a") = false := by decide
  have s3 : decide ("a" = "a") = true := by decide
  have s4 : decide ("b_min" = "b_min") = true := by decide
  refine ⟨?_, ?_, ?_, ?_⟩
  · norm_num [isortBy, isortInsert, nscore_desc, collect_values,
      lookup_field, assoc_lookup, field_conflict, s1, s2, s3, s4,
      List.find?, List.any, List.filterMap]
    rw [show |(1 : ℚ)/2| = 1/2 from abs_of_pos (by norm_num)]
    norm_num
  · norm_num [lookup_field, assoc_lookup, s1, s2, s3, s4, List.find?]
  · norm_num [merge_numeric_ranges, isortBy, isortInsert, nscore_desc,
      merge_fields_step, collect_values, lookup_field, assoc_lookup,
      field_conflict, set_field, list_min, list_max, e1, e2, e3,
      s1, s2, s3, s4, List.find?, List.foldl, List.any, List.filterMap]
  · norm_num

/-- Witness for C5: candidate B is a member of the concrete two-candidate
input and its score is bounded by the sorted head's score. -/
theorem merge_numeric_claim_witness :
    ((⟨"B", 1, [("a", 20), ("b_min", 9/2)], false⟩ : NCand) ∈
        [(⟨"A", 2, [("a", 10), ("b_min", 5)], false⟩ : NCand),
         ⟨"B", 1, [("a", 20), ("b_min", 9/2)], false⟩])
    ∧ (⟨"B", 1, [("a", 20), ("b_min", 9/2)], false⟩ : NCand).score
        ≤ ((isortBy nscore_desc
            [(⟨"A", 2, [("a", 10), ("b_min", 5)], false⟩ : NCand),
             ⟨"B", 1, [("a", 20), ("b_min", 9/2)], false⟩]).headD
            default).score :=
  ⟨List.mem_cons_of_mem _ (List.mem_cons_self _ _),
    (merge_numeric_claim.2.2 ⟨"A", 2, [("a", 10), ("b_min", 5)], false⟩
        ⟨"B", 1, [("a", 20), ("b_min", 9/2)], false⟩ [] ["a", "b_min"]).2.2.1.2.1
      ⟨"B", 1, [("a", 20), ("b_min", 9/2)], false⟩
      (List.mem_cons_of_mem _ (List.mem_cons_self _ _))⟩

/-! ## C4: text-entity merging -/

theorem score_desc_total : ∀ a b : TCand, (score_desc a b || score_desc b a) = true := by
  intro a b
  simp only [score_desc, Bool.or_eq_true, decide_eq_true_eq]
  exact le_total b.score a.score

theorem score_desc_trans : ∀ a b c : TCand, score_desc a b = true →
    score_desc b c = true → score_desc a c = true := by
  intro a b c hab hbc
  simp only [score_desc, decide_eq_true_eq] at hab hbc ⊢
  exact le_trans hbc hab

theorem sorted_head_props (g : List TCand) (hne : g ≠ []) :
    (isortBy score_desc g).headD default ∈ g
    ∧ (∀ c ∈ g, c.score ≤ ((isortBy score_desc g).headD default).score) := by
  have hsne : isortBy score_desc g ≠ [] := isortBy_ne_nil score_desc g hne
  match hs : isortBy score_desc g with
  | [] => exact absurd hs hsne
  | w :: tl =>
    have hw : w ∈ isortBy score_desc g := by
      rw [hs]
      exact List.mem_cons_self w tl
    have hpw := isortBy_pairwise score_desc score_desc_total score_desc_trans g
    rw [hs] at hpw
    constructor
    · exact ((isortBy_perm score_desc g).mem_iff).mp hw
    · intro c hc
      have hmem : c ∈ w :: tl := by
        rw [← hs]
        exact ((isortBy_perm score_desc g).mem_iff).mpr hc
      rcases List.mem_cons.mp hmem with heq | hmem'
      · rw [heq]
        exact le_rfl
      · have := (List.pairwise_cons.mp hpw).1 c hmem'
        simp only [score_desc, decide_eq_true_eq] at this
        exact this

theorem group_duplicates_mem (cands : List TCand) :
    ∀ grp ∈ group_duplicates cands,
    grp.2 ≠ [] ∧ grp.2 = cands.filter (fun c => norm_key c = grp.1)
      ∧ ∀ c ∈ grp.2, norm_key c = grp.1 := by
  intro grp hgrp
  unfold group_duplicates at hgrp
  rcases List.mem_map.mp hgrp with ⟨k, hk, heq⟩
  have hk2 := (mem_dedupFirst k _).mp hk
  rcases List.mem_filter.mp hk2 with ⟨hk3, _⟩
  rcases List.mem_map.mp hk3 with ⟨c0, hc0, hc0k⟩
  subst heq
  refine ⟨?_, rfl, ?_⟩
  · have hc0f : c0 ∈ cands.filter (fun c => norm_key c = k) :=
      List.mem_filter.mpr ⟨hc0, by simpa using hc0k⟩
    exact List.ne_nil_of_mem hc0f
  · intro c hc
    have := (List.mem_filter.mp hc).2
    simpa using this

theorem group_duplicates_keys (cands : List TCand) :
    (group_duplicates cands).Pairwise (fun a b => a.1 ≠ b.1) := by
  unfold group_duplicates
  refine List.Pairwise.map _ ?_ (nodup_dedupFirst _)
  intro a b hab
  simpa using hab

theorem merge_group_props (g : List TCand) (hne : g ≠ []) :
    (∃ w, w ∈ g ∧ (∀ c ∈ g, c.score ≤ w.score) ∧ (merge_group g).id = w.id
      ∧ (merge_group g).text = w.text ∧ (merge_group g).score = w.score)
    ∧ (merge_group g).evidence_count = (g.map (fun c => c.evidence_count)).sum
    ∧ (∀ x, x ∈ (merge_group g).source_chunk_ids
        ↔ ∃ c ∈ g, x ∈ c.source_chunk_ids)
    ∧ (positive_trusts g ≠ [] → (merge_group g).avg_trust
        = (positive_trusts g).sum / (positive_trusts g).length)
    ∧ (positive_relevances g ≠ [] → (merge_group g).avg_relevance
        = (positive_relevances g).sum / (positive_relevances g).length) := by
  have hp : (isortBy score_desc g).Perm g := isortBy_perm score_desc g
  have hpt : (positive_trusts (isortBy score_desc g)).Perm (positive_trusts g) :=
    (hp.filter _).map _
  have hpr : (positive_relevances (isortBy score_desc g)).Perm
      (positive_relevances g) := (hp.filter _).map _
  obtain ⟨hwmem, hwmax⟩ := sorted_head_props g hne
  refine ⟨⟨(isortBy score_desc g).headD default, hwmem, hwmax, rfl, rfl, rfl⟩,
    ?_, ?_, ?_, ?_⟩
  · show ((isortBy score_desc g).map (fun c => c.evidence_count)).sum = _
    exact (hp.map _).sum_eq
  · intro x
    show x ∈ dedupFirst ((isortBy score_desc g).flatMap
        (fun c => c.source_chunk_ids)) ↔ _
    rw [mem_dedupFirst, List.mem_flatMap]
    constructor
    · rintro ⟨c, hc, hx⟩
      exact ⟨c, hp.mem_iff.mp hc, hx⟩
    · rintro ⟨c, hc, hx⟩
      exact ⟨c, hp.mem_iff.mpr hc, hx⟩
  · intro hnz
    have hnz2 : positive_trusts (isortBy score_desc g) ≠ [] := by
      intro h
      have := hpt.length_eq
      rw [h] at this
      exact hnz (List.length_eq_zero.mp this.symm)
    show (if positive_trusts (isortBy score_desc g) = [] then _ else _) = _
    rw [if_neg hnz2, hpt.sum_eq, hpt.length_eq]
  · intro hnz
    have hnz2 : positive_relevances (isortBy score_desc g) ≠ [] := by
      intro h
      have := hpr.length_eq
      rw [h] at this
      exact hnz (List.length_eq_zero.mp this.symm)
    show (if positive_relevances (isortBy score_desc g) = [] then _ else _) = _
    rw [if_neg hnz2, hpr.sum_eq, hpr.length_eq]

theorem reject_group_props (g : List TCand) (hne : g ≠ []) :
    ∀ r ∈ reject_group g,
    r.rejected_reason = some "duplicate_merged"
    ∧ r.merged_into = some ((isortBy score_desc g).headD default).id
    ∧ (∃ l, l ∈ g ∧ r.text = l.text ∧ r.score = l.score)
    ∧ r.score ≤ ((isortBy score_desc g).headD default).score := by
  intro r hr
  unfold reject_group at hr
  rcases List.mem_map.mp hr with ⟨l, hl, heq⟩
  have hlmem : l ∈ isortBy score_desc g := List.mem_of_mem_tail hl
  have hlg : l ∈ g := ((isortBy_perm score_desc g).mem_iff).mp hlmem
  subst heq
  exact ⟨rfl, rfl, ⟨l, hlg, rfl, rfl⟩, (sorted_head_props g hne).2 l hlg⟩

theorem reject_group_length (g : List TCand) :
    (reject_group g).length = g.length - 1 := by
  unfold reject_group
  rw [List.length_map, List.length_tail,
    (isortBy_perm score_desc g).length_eq]

theorem rejected_count (gs : List (String × List TCand))
    (hne : ∀ g ∈ gs, g.2 ≠ []) :
    (gs.flatMap (fun g => if g.2.length = 1 then [] else reject_group g.2)).length
      + gs.length = (gs.map (fun g => g.2.length)).sum := by
  induction gs with
  | nil => rfl
  | cons g t ih =>
    have hlen : 1 ≤ g.2.length :=
      List.length_pos.mpr (hne g (List.mem_cons_self g t))
    have iht := ih (fun x hx => hne x (List.mem_cons_of_mem g hx))
    simp only [List.flatMap_cons, List.length_append, List.map_cons,
      List.sum_cons, List.length_cons]
    by_cases hl : g.2.length = 1
    · rw [if_pos hl]
      simp only [List.length_nil]
      omega
    · rw [if_neg hl, reject_group_length]
      omega

/-- C4: `merge_text_entities` returns canonical entities no two of which
share the same normalized text; for each duplicate group the canonical is
a highest-scoring member, its evidence count is the sum over the group,
its average trust and relevance are averaged over the members with
positive evidence (when any exist), and its source chunk ids are, as a
set, the union over the group; every rejected entry carries reason
`duplicate_merged` and the id of the canonical entity with its normalized
text, whose score is no smaller; and the rejected and canonical rows
together account for every grouped candidate. -/
theorem merge_text_claim (cands : List TCand) :
    ((merge_text_entities cands).1.Pairwise
      (fun a b => normalize_text a.text ≠ normalize_text b.text))
    ∧ (merge_text_entities cands).1.length = (group_duplicates cands).length
    ∧ (∀ (i : ℕ) (m : TCand) (grp : String × List TCand),
        (merge_text_entities cands).1[i]? = some m →
        (group_duplicates cands)[i]? = some grp →
        m.evidence_count = (grp.2.map (fun c => c.evidence_count)).sum
        ∧ (∃ w, w ∈ grp.2 ∧ (∀ c ∈ grp.2, c.score ≤ w.score) ∧ m.id = w.id
            ∧ m.text = w.text)
        ∧ (∀ x, x ∈ m.source_chunk_ids ↔ ∃ c ∈ grp.2, x ∈ c.source_chunk_ids)
        ∧ (positive_trusts grp.2 ≠ [] → m.avg_trust
            = (positive_trusts grp.2).sum / (positive_trusts grp.2).length)
        ∧ (positive_relevances grp.2 ≠ [] → m.avg_relevance
            = (positive_relevances grp.2).sum / (positive_relevances grp.2).length))
    ∧ (∀ r ∈ (merge_text_entities cands).2,
        r.rejected_reason = some "duplicate_merged"
        ∧ ∃ m ∈ (merge_text_entities cands).1, r.merged_into = some m.id
            ∧ normalize_text r.text = normalize_text m.text
            ∧ r.score ≤ m.score)
    ∧ ((merge_text_entities cands).2.length
          + (merge_text_entities cands).1.length
        = ((group_duplicates cands).map (fun g => g.2.length)).sum) := by
  have h1 : (merge_text_entities cands).1 = (group_duplicates cands).map
      (fun g => if g.2.length = 1 then g.2.headD default else merge_group g.2) :=
    rfl
  have h2 : (merge_text_entities cands).2 = (group_duplicates cands).flatMap
      (fun g => if g.2.length = 1 then [] else reject_group g.2) := rfl
  have hFtext : ∀ grp ∈ group_duplicates cands,
      normalize_text (if grp.2.length = 1 then grp.2.headD default
        else merge_group grp.2).text = grp.1 := by
    intro grp hgrp
    obtain ⟨hne2, _, hmemkey⟩ := group_duplicates_mem cands grp hgrp
    by_cases hl : grp.2.length = 1
    · rw [if_pos hl]
      match hg2 : grp.2 with
      | [] => exact absurd hg2 hne2
      | c :: t =>
        exact hmemkey c (by rw [hg2]; exact List.mem_cons_self c t)
    · rw [if_neg hl]
      obtain ⟨w, hwmem, _, _, hwtext, _⟩ := (merge_group_props grp.2 hne2).1
      rw [hwtext]
      exact hmemkey w hwmem
  refine ⟨?_, ?_, ?_, ?_, ?_⟩
  · rw [h1, List.pairwise_map]
    refine List.Pairwise.imp_of_mem ?_ (group_duplicates_keys cands)
    intro a b ha hb hne
    rw [hFtext a ha, hFtext b hb]
    exact hne
  · rw [h1, List.length_map]
  · intro i m grp hm hgrp
    rcases List.getElem?_eq_some.mp hgrp with ⟨hilt, hgrp2⟩
    rw [h1] at hm
    rcases List.getElem?_eq_some.mp hm with ⟨hilt2, hm2⟩
    rw [List.getElem_map] at hm2
    rw [hgrp2] at hm2
    have hgmem : grp ∈ group_duplicates cands := by
      rw [← hgrp2]
      exact List.getElem_mem hilt
    obtain ⟨hne2, _, hmemkey⟩ := group_duplicates_mem cands grp hgmem
    by_cases hl : grp.2.length = 1
    · rw [if_pos hl] at hm2
      rcases List.length_eq_one.mp hl with ⟨c, hc⟩
      rw [hc] at hm2
      subst hm2
      rw [hc]
      refine ⟨by simp, ⟨c, List.mem_cons_self c [], ?_, rfl, rfl⟩, ?_, ?_, ?_⟩
      · intro x hx
        rcases List.mem_singleton.mp hx with rfl
        exact le_rfl
      · intro x
        simp
      · intro hnz
        by_cases hpos : 0 < c.evidence_count
        · have : positive_trusts [c] = [c.avg_trust] := by
            simp [positive_trusts, hpos]
          rw [this]
          simp
        · exact absurd (by simp [positive_trusts, hpos]) hnz
      · intro hnz
        by_cases hpos : 0 < c.evidence_count
        · have : positive_relevances [c] = [c.avg_relevance] := by
            simp [positive_relevances, hpos]
          rw [this]
          simp
        · exact absurd (by simp [positive_relevances, hpos]) hnz
    · rw [if_neg hl] at hm2
      subst hm2
      obtain ⟨hex, hev, hsrc, htr, hrel⟩ := merge_group_props grp.2 hne2
      exact ⟨hev, hex.imp (fun w ⟨hw1, hw2, hw3, hw4, _⟩ => ⟨hw1, hw2, hw3, hw4⟩),
        hsrc, htr, hrel⟩
  · intro r hr
    rw [h2] at hr
    rcases List.mem_flatMap.mp hr with ⟨grp, hgrp, hrg⟩
    by_cases hl : grp.2.length = 1
    · rw [if_pos hl] at hrg
      exact absurd hrg (List.not_mem_nil r)
    · rw [if_neg hl] at hrg
      obtain ⟨hne2, _, hmemkey⟩ := group_duplicates_mem cands grp hgrp
      obtain ⟨hreason, hminto, ⟨l, hlg, hltext, hlscore⟩, hscore⟩ :=
        reject_group_props grp.2 hne2 r hrg
      obtain ⟨hwmem, _⟩ := sorted_head_props grp.2 hne2
      refine ⟨hreason, merge_group grp.2, ?_, hminto, ?_, hscore⟩
      · rw [h1]
        have hmm : (if grp.2.length = 1 then grp.2.headD default
            else merge_group grp.2) ∈ List.map
            (fun g => if g.2.length = 1 then g.2.headD default
              else merge_group g.2) (group_duplicates cands) :=
          List.mem_map_of_mem _ hgrp
        rwa [if_neg hl] at hmm
      · rw [hltext]
        show normalize_text l.text = normalize_text
          ((isortBy score_desc grp.2).headD default).text
        exact (hmemkey l hlg).trans (hmemkey _ hwmem).symm
  · rw [h1, h2, List.length_map]
    exact rejected_count (group_duplicates cands)
      (fun g hg => (group_duplicates_mem cands g hg).1)

/-- Witness for C4: with two candidates normalizing to the same text
("Bad  Sensor!" and "bad sensor"), the lower-scoring one is returned
rejected with reason `duplicate_merged` and the winner's id, and its
normalized text matches a canonical entity of no smaller score. -/
theorem merge_text_claim_witness :
    ((⟨"id1", "Bad  Sensor!", 1, 2, 1, 1, ["c1"], some "duplicate_merged",
        some "id2"⟩ : TCand) ∈ (merge_text_entities
        [⟨"id1", "Bad  Sensor!", 1, 2, 1, 1, ["c1"], none, none⟩,
         ⟨"id2", "bad sensor", 5, 3, 0, 0, ["c2"], none, none⟩]).2)
    ∧ ((⟨"id1", "Bad  Sensor!", 1, 2, 1, 1, ["c1"], some "duplicate_merged",
        some "id2"⟩ : TCand).rejected_reason = some "duplicate_merged"
      ∧ ∃ m ∈ (merge_text_entities
          [⟨"id1", "Bad  Sensor!", 1, 2, 1, 1, ["c1"], none, none⟩,
           ⟨"id2", "bad sensor", 5, 3, 0, 0, ["c2"], none, none⟩]).1,
          (⟨"id1", "Bad  Sensor!", 1, 2, 1, 1, ["c1"], some "duplicate_merged",
            some "id2"⟩ : TCand).merged_into = some m.id
          ∧ normalize_text (⟨"id1", "Bad  Sensor!", 1, 2, 1, 1, ["c1"],
              some "duplicate_merged", some "id2"⟩ : TCand).text
            = normalize_text m.text
          ∧ (⟨"id1", "Bad  Sensor!", 1, 2, 1, 1, ["c1"],
              some "duplicate_merged", some "id2"⟩ : TCand).score ≤ m.score) :=
  ⟨by decide,
    (merge_text_claim
      [⟨"id1", "Bad  Sensor!", 1, 2, 1, 1, ["c1"], none, none⟩,
       ⟨"id2", "bad sensor", 5, 3, 0, 0, ["c2"], none, none⟩]).2.2.2.1
      ⟨"id1", "Bad  Sensor!", 1, 2, 1, 1, ["c1"], some "duplicate_merged",
        some "id2"⟩ (by decide)⟩
